import Mathlib

/-!
Verification of the simulation core of the "Dodge Rush" arcade game
(`src/main.rs`).  The game logic is shallowly embedded in Lean: `f32`
values are modelled as rationals (`ℚ`), Rust `Vec`s as `List`s (with
`swap_remove` given its exact swap-with-last semantics), and the effectful
collaborators (keyboard polling, random number generation, wall-clock
time, the `powf` decay factor, screen geometry) are supplied as explicit
per-tick inputs.  Calls to the persistence collaborator `save_best` are
recorded as an output list of saved values.
-/

namespace DodgeRush

/-- PLAYER_W from the source. -/
def PLAYER_W : ℚ := 80

/-- PLAYER_H from the source. -/
def PLAYER_H : ℚ := 18

/-- PLAYER_Y from the source. -/
def PLAYER_Y : ℚ := 560

/-- PLAYER_SPEED_MAX from the source. -/
def PLAYER_SPEED_MAX : ℚ := 520

/-- PLAYER_ACC from the source. -/
def PLAYER_ACC : ℚ := 2400

/-- OB_START_SPEED from the source. -/
def OB_START_SPEED : ℚ := 140

/-- OB_ACC_PER_SEC from the source. -/
def OB_ACC_PER_SEC : ℚ := 18

/-- SPAWN_BASE_INTERVAL from the source. -/
def SPAWN_BASE_INTERVAL : ℚ := 9/10

/-- SPAWN_MIN_INTERVAL from the source. -/
def SPAWN_MIN_INTERVAL : ℚ := 1/4

/-- PU_SPAWN_INTERVAL from the source. -/
def PU_SPAWN_INTERVAL : ℚ := 6

/-- PU_FALL_SPEED from the source. -/
def PU_FALL_SPEED : ℚ := 120

/-- PU_SIZE from the source. -/
def PU_SIZE : ℚ := 28

/-- SLOW_DURATION from the source. -/
def SLOW_DURATION : ℚ := 6

/-- SLOW_FACTOR from the source. -/
def SLOW_FACTOR : ℚ := 1/2

/-- Axis-aligned rectangle, mirroring `macroquad::math::Rect`. -/
structure Rect where
  x : ℚ
  y : ℚ
  w : ℚ
  h : ℚ
deriving DecidableEq, Repr

/-- `rects_overlap` from the source: strict inequalities on all four
half-plane tests, so touching edges do not count as overlap. -/
def rects_overlap (a b : Rect) : Bool :=
  decide (a.x < b.x + b.w ∧ a.x + a.w > b.x ∧ a.y < b.y + b.h ∧ a.y + a.h > b.y)

/-- `Vec::swap_remove(i)`: overwrite position `i` with the last element and
drop the last slot.  For `i` out of range the Rust call panics; the model
is only ever used with `i < l.length`. -/
def swapRemove {α : Type} (l : List α) (i : ℕ) : List α :=
  match l.getLast? with
  | none => []
  | some a => (l.set i a).dropLast

/-- Falling obstacle: rectangle plus downward speed. -/
structure Obstacle where
  rect : Rect
  vy : ℚ
deriving DecidableEq, Repr

instance : Inhabited Obstacle := ⟨⟨⟨0, 0, 0, 0⟩, 0⟩⟩

/-- `ObstaclePool`: live and recycled (`dead`) obstacle vectors. -/
structure ObstaclePool where
  live : List Obstacle
  dead : List Obstacle
deriving DecidableEq, Repr

/-- `ObstaclePool::new`. -/
def ObstaclePool.new : ObstaclePool := ⟨[], []⟩

/-- `ObstaclePool::spawn`: pop a recycled object if available (its fields
are fully overwritten), else allocate; push onto `live`. -/
def ObstaclePool.spawn (p : ObstaclePool) (rect : Rect) (vy : ℚ) : ObstaclePool :=
  match p.dead.getLast? with
  | some _ => ⟨p.live ++ [⟨rect, vy⟩], p.dead.dropLast⟩
  | none => ⟨p.live ++ [⟨rect, vy⟩], p.dead⟩

/-- The `while i < live.len()` loop body of `ObstaclePool::update_and_sweep`:
advance `live[i]` by `vy * dt`; if it passed the bottom bound, swap-remove it
into `dead` (keeping `i`), else advance `i`. -/
def sweepLoopOb (screen_h dt : ℚ) (live dead : List Obstacle) (i : ℕ) :
    List Obstacle × List Obstacle :=
  if h : i < live.length then
    let o := live[i]
    let o2 : Obstacle := ⟨⟨o.rect.x, o.rect.y + o.vy * dt, o.rect.w, o.rect.h⟩, o.vy⟩
    let live2 := live.set i o2
    if o2.rect.y > screen_h + 5 then
      sweepLoopOb screen_h dt (swapRemove live2 i) (dead ++ [o2]) i
    else
      sweepLoopOb screen_h dt live2 dead (i + 1)
  else (live, dead)
termination_by live.length - i
decreasing_by
  · simp only [swapRemove]
    split
    · simp only [List.length_nil]
      omega
    · simp only [List.length_dropLast, List.length_set]
      omega
  · simp only [List.length_set]
    omega

/-- `ObstaclePool::update_and_sweep`. -/
def ObstaclePool.update_and_sweep (p : ObstaclePool) (screen_h dt : ℚ) : ObstaclePool :=
  let r := sweepLoopOb screen_h dt p.live p.dead 0
  ⟨r.1, r.2⟩

/-- The `while let Some(dead) = live.pop()` loop of `ObstaclePool::clear_all`. -/
def clearLoopOb (live dead : List Obstacle) : List Obstacle × List Obstacle :=
  match h : live.getLast? with
  | some o => clearLoopOb live.dropLast (dead ++ [o])
  | none => (live, dead)
termination_by live.length
decreasing_by
  have hne : live ≠ [] := by
    intro hnil
    subst hnil
    simp at h
  have := List.length_pos.mpr hne
  simp only [List.length_dropLast]
  omega

/-- `ObstaclePool::clear_all`: move every live obstacle to `dead`. -/
def ObstaclePool.clear_all (p : ObstaclePool) : ObstaclePool :=
  let r := clearLoopOb p.live p.dead
  ⟨r.1, r.2⟩

/-- `PowerUpKind` from the source. -/
inductive PowerUpKind where
  | Shield
  | Slow
  | Bomb
deriving DecidableEq, Repr

/-- Falling power-up. -/
structure PowerUp where
  rect : Rect
  vy : ℚ
  kind : PowerUpKind
deriving DecidableEq, Repr

instance : Inhabited PowerUp := ⟨⟨⟨0, 0, 0, 0⟩, 0, .Shield⟩⟩

/-- `PowerUpPool`: live and recycled power-up vectors. -/
structure PowerUpPool where
  live : List PowerUp
  dead : List PowerUp
deriving DecidableEq, Repr

/-- `PowerUpPool::new`. -/
def PowerUpPool.new : PowerUpPool := ⟨[], []⟩

/-- `PowerUpPool::spawn`: the new rectangle is `Rect::new(x, y, PU_SIZE,
PU_SIZE)`, speed `PU_FALL_SPEED`; a recycled object is fully overwritten. -/
def PowerUpPool.spawn (p : PowerUpPool) (x y : ℚ) (kind : PowerUpKind) : PowerUpPool :=
  match p.dead.getLast? with
  | some _ => ⟨p.live ++ [⟨⟨x, y, PU_SIZE, PU_SIZE⟩, PU_FALL_SPEED, kind⟩], p.dead.dropLast⟩
  | none => ⟨p.live ++ [⟨⟨x, y, PU_SIZE, PU_SIZE⟩, PU_FALL_SPEED, kind⟩], p.dead⟩

/-- The sweep loop of `PowerUpPool::update_and_sweep`. -/
def sweepLoopPu (screen_h dt : ℚ) (live dead : List PowerUp) (i : ℕ) :
    List PowerUp × List PowerUp :=
  if h : i < live.length then
    let p := live[i]
    let p2 : PowerUp := ⟨⟨p.rect.x, p.rect.y + p.vy * dt, p.rect.w, p.rect.h⟩, p.vy, p.kind⟩
    let live2 := live.set i p2
    if p2.rect.y > screen_h + 5 then
      sweepLoopPu screen_h dt (swapRemove live2 i) (dead ++ [p2]) i
    else
      sweepLoopPu screen_h dt live2 dead (i + 1)
  else (live, dead)
termination_by live.length - i
decreasing_by
  · simp only [swapRemove]
    split
    · simp only [List.length_nil]
      omega
    · simp only [List.length_dropLast, List.length_set]
      omega
  · simp only [List.length_set]
    omega

/-- `PowerUpPool::update_and_sweep`. -/
def PowerUpPool.update_and_sweep (p : PowerUpPool) (screen_h dt : ℚ) : PowerUpPool :=
  let r := sweepLoopPu screen_h dt p.live p.dead 0
  ⟨r.1, r.2⟩

/-- The scan loop of `PowerUpPool::pick_at`: first live power-up (in pool
order) overlapping the player is swap-removed into `dead` and its kind
returned; otherwise the pool is untouched. -/
def pickLoopPu (live dead : List PowerUp) (player : Rect) (i : ℕ) :
    Option PowerUpKind × List PowerUp × List PowerUp :=
  if h : i < live.length then
    if rects_overlap live[i].rect player then
      (some live[i].kind, swapRemove live i, dead ++ [live[i]])
    else
      pickLoopPu live dead player (i + 1)
  else (none, live, dead)
termination_by live.length - i

/-- `PowerUpPool::pick_at`. -/
def PowerUpPool.pick_at (p : PowerUpPool) (player : Rect) : Option PowerUpKind × PowerUpPool :=
  let r := pickLoopPu p.live p.dead player 0
  (r.1, ⟨r.2.1, r.2.2⟩)

/-- `GameMode` from the source. -/
inductive GameMode where
  | Menu
  | Playing
  | Paused
  | GameOver
deriving DecidableEq, Repr

/-- `Player` from the source: horizontal position and velocity. -/
structure Player where
  x : ℚ
  vx : ℚ
deriving DecidableEq, Repr

/-- The effectful collaborators consumed by one `update_game` tick, passed
as explicit values: the fixed-step duration `dt`, the `input_axis` result
`dir`, the value `decayMul` of `(1.0 - PLAYER_DECAY).powf(dt * 1000.0)`,
the wall-clock `macroquad::time::get_time()` value `now`, the random draws
used by the spawners, the edge-triggered key presses, and the screen
geometry. -/
structure TickInput where
  dt : ℚ
  dir : ℚ
  decayMul : ℚ
  now : ℚ
  obSize : ℚ
  obX : ℚ
  obVyMul : ℚ
  puRoll : ℚ
  puX : ℚ
  puKindRoll : ℕ
  keySpace : Bool
  keyP : Bool
  keyR : Bool
  keyEsc : Bool
  screenW : ℚ
  screenH : ℚ
deriving DecidableEq, Repr

/-- `Game` from the source (the `Resources` font handle is rendering-only
and omitted). -/
structure Game where
  mode : GameMode
  player : Player
  obs : ObstaclePool
  pus : PowerUpPool
  time_tick : ℚ
  score : ℤ
  best_score : ℤ
  spawn_timer : ℚ
  spawn_interval : ℚ
  fall_speed : ℚ
  shake : ℚ
  shield : ℕ
  slow_timer : ℚ
  pu_spawn_timer : ℚ
deriving DecidableEq, Repr

/-- `Game::new(best)`. -/
def Game.new (best : ℤ) : Game :=
  { mode := GameMode.Menu
    player := ⟨0, 0⟩
    obs := ObstaclePool.new
    pus := PowerUpPool.new
    time_tick := 0
    score := 0
    best_score := best
    spawn_timer := 0
    spawn_interval := SPAWN_BASE_INTERVAL
    fall_speed := OB_START_SPEED
    shake := 0
    shield := 0
    slow_timer := 0
    pu_spawn_timer := 0 }

/-- The state `main` starts the loop with: `Game::new(best)` followed by
`game.player.x = screen_width() * 0.5 - PLAYER_W * 0.5`. -/
def mainInit (best : ℤ) (screenW : ℚ) : Game :=
  { Game.new best with player := ⟨screenW * (1/2) - PLAYER_W * (1/2), 0⟩ }

/-- `Game::reset_round`. -/
def reset_round (g : Game) (screenW : ℚ) : Game :=
  { g with
    player := ⟨screenW * (1/2) - PLAYER_W * (1/2), 0⟩
    obs := ⟨[], []⟩
    pus := ⟨[], []⟩
    time_tick := 0
    score := 0
    spawn_timer := 0
    spawn_interval := SPAWN_BASE_INTERVAL
    fall_speed := OB_START_SPEED
    shake := 0
    shield := 0
    slow_timer := 0
    pu_spawn_timer := 0
    mode := GameMode.Playing }

/-- Rust's `f32::clamp` (the source only calls it with `lo ≤ hi`). -/
def clamp (v lo hi : ℚ) : ℚ := min (max v lo) hi

/-- `difficulty_curve` from the source. -/
def difficulty_curve (elapsed fall_base spawn_base : ℚ) : ℚ × ℚ :=
  (fall_base + elapsed * OB_ACC_PER_SEC,
    max (spawn_base - elapsed * (1/50)) SPAWN_MIN_INTERVAL)

/-- The `match rand::gen_range(0, 3)` kind selection of the power-up
spawner. -/
def puKindOf (n : ℕ) : PowerUpKind :=
  match n with
  | 0 => PowerUpKind.Shield
  | 1 => PowerUpKind.Slow
  | _ => PowerUpKind.Bomb

/-- The pickup box `Rect::new(player.x, PLAYER_Y, PLAYER_W, PLAYER_H)`. -/
def pboxRect (x : ℚ) : Rect := ⟨x, PLAYER_Y, PLAYER_W, PLAYER_H⟩

/-- The shrunk collision hitbox: pickup box with `x += 6.0; w -= 12.0`. -/
def hitRect (x : ℚ) : Rect := ⟨x + 6, PLAYER_Y, PLAYER_W - 12, PLAYER_H⟩

/-- The slow-effect countdown:
`if slow_timer > 0 { slow_timer = (slow_timer - dt).max(0.0) }`. -/
def slowAfter (g : Game) (dt : ℚ) : ℚ :=
  if g.slow_timer > 0 then max (g.slow_timer - dt) 0 else g.slow_timer

/-- The scoring accumulator loop:
`time_tick += dt; while time_tick >= 0.4 { time_tick -= 0.4; score += 1 }`
(the `+= dt` is done by the caller). -/
def scoreLoop (t : ℚ) (s : ℤ) : ℚ × ℤ :=
  if h : t ≥ 2/5 then scoreLoop (t - 2/5) (s + 1) else (t, s)
termination_by (⌊t * (5/2)⌋).toNat
decreasing_by
  have e : (t - 2/5) * (5/2) = t * (5/2) - 1 := by ring
  rw [e, Int.floor_sub_one]
  have h1 : (1 : ℤ) ≤ ⌊t * (5/2)⌋ := by
    rw [Int.le_floor]
    push_cast
    linarith
  omega

/-- The `GameMode::Playing` tick prefix, up to (and excluding) power-up
pickup: movement, slow decay, difficulty update, obstacle and power-up
spawning, sweeps, and scoring. -/
def prePickup (g : Game) (inp : TickInput) : Game :=
  let vx1 := clamp (if |inp.dir| > 0 then g.player.vx + inp.dir * PLAYER_ACC * inp.dt
      else g.player.vx * inp.decayMul) (-PLAYER_SPEED_MAX) PLAYER_SPEED_MAX
  let x1 := clamp (g.player.x + vx1 * inp.dt) 0 (inp.screenW - PLAYER_W)
  let slow1 := slowAfter g inp.dt
  let slowMul := if slow1 > 0 then SLOW_FACTOR else 1
  let dc := difficulty_curve inp.now OB_START_SPEED g.spawn_interval
  let fallSpeed := dc.1 * slowMul
  let spawnItv := max (dc.2 / slowMul) SPAWN_MIN_INTERVAL
  let st1 := g.spawn_timer + inp.dt
  let st2 := if st1 ≥ spawnItv then 0 else st1
  let obs1 := if st1 ≥ spawnItv then
      g.obs.spawn ⟨inp.obX, -inp.obSize - 10, inp.obSize, inp.obSize⟩ (fallSpeed * inp.obVyMul)
    else g.obs
  let pt1 := g.pu_spawn_timer + inp.dt
  let pt2 := if pt1 ≥ PU_SPAWN_INTERVAL then 0 else pt1
  let pus1 := if pt1 ≥ PU_SPAWN_INTERVAL then
      (if inp.puRoll < 3/10 then g.pus.spawn inp.puX (-PU_SIZE - 8) (puKindOf inp.puKindRoll)
        else g.pus)
    else g.pus
  let obs2 := obs1.update_and_sweep inp.screenH inp.dt
  let pus2 := pus1.update_and_sweep inp.screenH inp.dt
  let ts := scoreLoop (g.time_tick + inp.dt) g.score
  { g with
    player := ⟨x1, vx1⟩
    slow_timer := slow1
    fall_speed := fallSpeed
    spawn_interval := spawnItv
    spawn_timer := st2
    obs := obs2
    pu_spawn_timer := pt2
    pus := pus2
    time_tick := ts.1
    score := ts.2 }

/-- The `match kind` arm of the pickup handler. -/
def applyPowerUp (g : Game) (kind : PowerUpKind) : Game :=
  match kind with
  | PowerUpKind.Shield => { g with shield := min (g.shield + 1) 3 }
  | PowerUpKind.Slow => { g with slow_timer := SLOW_DURATION }
  | PowerUpKind.Bomb => { g with obs := g.obs.clear_all, shake := 6 }

/-- The pickup phase: `if let Some(kind) = pus.pick_at(pbox) { ... }`. -/
def pickupStep (g : Game) : Game :=
  let r := g.pus.pick_at (pboxRect g.player.x)
  match r.1 with
  | some kind => applyPowerUp { g with pus := r.2 } kind
  | none => { g with pus := r.2 }

/-- State of a `Playing` tick right after power-up pickup, before the
obstacle collision test. -/
def afterPickup (g : Game) (inp : TickInput) : Game := pickupStep (prePickup g inp)

/-- The collision-resolution phase: first live obstacle overlapping the
shrunk hitbox; a shield absorbs it, otherwise the round ends (best score
committed and handed to `save_best`, mode `GameOver`, shake 10). The second
component records the `save_best` calls made. -/
def collisionStep (g : Game) : Game × List ℤ :=
  match List.findIdx? (fun o => rects_overlap o.rect (hitRect g.player.x)) g.obs.live with
  | some i =>
    if g.shield > 0 then
      ({ g with
          obs := ⟨swapRemove g.obs.live i, g.obs.dead ++ [g.obs.live.getD i default]⟩
          shield := g.shield - 1
          shake := max g.shake 4 }, [])
    else
      ({ g with
          best_score := max g.best_score g.score
          mode := GameMode.GameOver
          shake := 10 }, [max g.best_score g.score])
  | none => (g, [])

/-- The full `GameMode::Playing` arm of `update_game` (the trailing `P`
keypress check included). -/
def playingStep (g : Game) (inp : TickInput) : Game × List ℤ :=
  let g2 := afterPickup g inp
  let r := collisionStep g2
  (if inp.keyP then { r.1 with mode := GameMode.Paused } else r.1, r.2)

/-- The `match game.mode` dispatch of `update_game`, without the final
shake decay. -/
def modeStep (g : Game) (inp : TickInput) : Game × List ℤ :=
  match g.mode with
  | GameMode.Menu => (if inp.keySpace then reset_round g inp.screenW else g, [])
  | GameMode.Playing => playingStep g inp
  | GameMode.Paused =>
      let g1 := if inp.keyP then { g with mode := GameMode.Playing } else g
      let g2 := if inp.keyR then reset_round g1 inp.screenW else g1
      (if inp.keyEsc then { g2 with mode := GameMode.Menu } else g2, [])
  | GameMode.GameOver =>
      let g1 := if inp.keyR then reset_round g inp.screenW else g
      (if inp.keyEsc then { g1 with mode := GameMode.Menu } else g1, [])

/-- `update_game`: mode dispatch followed by the unconditional shake decay
`if shake > 0 { shake = (shake - 60 * dt).max(0) }`. -/
def update_game (g : Game) (inp : TickInput) : Game × List ℤ :=
  let r := modeStep g inp
  ({ r.1 with shake := if r.1.shake > 0 then max (r.1.shake - 60 * inp.dt) 0 else r.1.shake },
    r.2)

/-- Iterate `update_game` over a list of tick inputs. -/
def runTicks (g : Game) (l : List TickInput) : Game :=
  l.foldl (fun g inp => (update_game g inp).1) g

/-- Game states reachable from program start under arbitrary tick inputs. -/
inductive Reachable : Game → Prop where
  | new : ∀ best, Reachable (Game.new best)
  | start : ∀ best screenW, Reachable (mainInit best screenW)
  | step : ∀ g inp, Reachable g → Reachable (update_game g inp).1

/-- Abstract obstacle-pool operation (for the pool lifecycle invariant). -/
inductive ObOp where
  | spawnOp (rect : Rect) (vy : ℚ)
  | sweepOp (screen_h dt : ℚ)
  | clearOp

/-- Apply one abstract operation to an obstacle pool. -/
def ObstaclePool.applyOp (p : ObstaclePool) : ObOp → ObstaclePool
  | ObOp.spawnOp r vy => p.spawn r vy
  | ObOp.sweepOp sh dt => p.update_and_sweep sh dt
  | ObOp.clearOp => p.clear_all

/-- Number of objects newly constructed by one obstacle-pool operation:
`spawn` allocates exactly when the recycle list is empty. -/
def obConstructs (p : ObstaclePool) : ObOp → ℕ
  | ObOp.spawnOp _ _ => if p.dead.isEmpty then 1 else 0
  | _ => 0

/-- Run a sequence of obstacle-pool operations. -/
def obRun (p : ObstaclePool) (ops : List ObOp) : ObstaclePool :=
  ops.foldl ObstaclePool.applyOp p

/-- Total number of objects constructed while running `ops`. -/
def obNewCount : ObstaclePool → List ObOp → ℕ
  | _, [] => 0
  | p, op :: ops => obConstructs p op + obNewCount (p.applyOp op) ops

/-- Abstract power-up-pool operation. -/
inductive PuOp where
  | spawnOp (x y : ℚ) (kind : PowerUpKind)
  | sweepOp (screen_h dt : ℚ)
  | pickOp (player : Rect)

/-- Apply one abstract operation to a power-up pool. -/
def PowerUpPool.applyOp (p : PowerUpPool) : PuOp → PowerUpPool
  | PuOp.spawnOp x y k => p.spawn x y k
  | PuOp.sweepOp sh dt => p.update_and_sweep sh dt
  | PuOp.pickOp pr => (p.pick_at pr).2

/-- Number of objects newly constructed by one power-up-pool operation. -/
def puConstructs (p : PowerUpPool) : PuOp → ℕ
  | PuOp.spawnOp _ _ _ => if p.dead.isEmpty then 1 else 0
  | _ => 0

/-- Run a sequence of power-up-pool operations. -/
def puRun (p : PowerUpPool) (ops : List PuOp) : PowerUpPool :=
  ops.foldl PowerUpPool.applyOp p

/-- Total number of objects constructed while running `ops`. -/
def puNewCount : PowerUpPool → List PuOp → ℕ
  | _, [] => 0
  | p, op :: ops => puConstructs p op + puNewCount (p.applyOp op) ops

/-- A concrete quiescent tick input used in witness scenarios: `dt = 0`, no
keys pressed, no direction held, spawn rolls that do not fire. -/
def inp0 : TickInput := ⟨0, 0, 1, 0, 30, 0, 1, 1, 100, 0, false, false, false, false, 800, 600⟩

/-- Concrete obstacle overlapping the shrunk hitbox of a player at
`x = 360` (used in witness scenarios). -/
def obCex : Obstacle := ⟨⟨366, 560, 20, 10⟩, 0⟩

/-- Concrete Bomb power-up overlapping the pickup box of a player at
`x = 360` (used in witness scenarios). -/
def puBomb : PowerUp := ⟨⟨350, 560, 28, 28⟩, 120, PowerUpKind.Bomb⟩

/-- Scenario: fresh round with `best_score = 50`, `score = 30`, `shield = 0`
and one obstacle overlapping the player. -/
def gFatal : Game :=
  { reset_round (Game.new 50) 800 with score := 30, obs := ⟨[obCex], []⟩ }

/-- Scenario: fresh round with one overlapping obstacle and one overlapping
Bomb power-up. -/
def gBomb : Game :=
  { reset_round (Game.new 0) 800 with obs := ⟨[obCex], []⟩, pus := ⟨[puBomb], []⟩ }

/-- Scenario: `gBomb` with a pre-existing shake of 10. -/
def gBombShake : Game := { gBomb with shake := 10 }

/-- A tick input with `dt = 3/10` and everything else quiescent. -/
def inpT : TickInput := ⟨3/10, 0, 1, 0, 30, 0, 1, 1, 100, 0, false, false, false, false, 800, 600⟩

/-- The fall-speed formula in the specification's own words:
`OB_START_SPEED + elapsed_round_time * OB_ACC_PER_SEC`, scaled by the slow
multiplier, where `elapsed_round_time` is the time since the current round
started.  Stated from the spec for comparison with the implementation. -/
def specFallSpeed (elapsedRound : ℚ) (slowActive : Bool) : ℚ :=
  (OB_START_SPEED + elapsedRound * OB_ACC_PER_SEC) * (if slowActive then SLOW_FACTOR else 1)

theorem length_swapRemove {α : Type} (l : List α) (i : ℕ) (h : i < l.length) :
    (swapRemove l i).length = l.length - 1 := by
  rcases List.eq_nil_or_concat l with rfl | ⟨m, a, rfl⟩
  · simp at h
  · simp [swapRemove, List.concat_eq_append, List.getLast?_concat]

theorem swapRemove_perm {α : Type} (l : List α) (i : ℕ) (h : i < l.length) :
    l.Perm (l.get ⟨i, h⟩ :: swapRemove l i) := by
  obtain ⟨m, a, hl⟩ : ∃ m a, l = m ++ [a] := by
    rcases List.eq_nil_or_concat l with rfl | ⟨m, a, hl⟩
    · simp at h
    · exact ⟨m, a, by simpa [List.concat_eq_append] using hl⟩
  subst hl
  simp only [swapRemove, List.getLast?_concat]
  rcases lt_or_ge i m.length with hi | hi
  · -- the removed slot lies strictly inside the prefix `m`
    rw [List.set_append, if_pos hi, List.dropLast_concat]
    have hget : (m ++ [a]).get ⟨i, h⟩ = m[i] := by
      simpa using List.getElem_append_left hi
    have hm : m.take i ++ m[i] :: m.drop (i + 1) = m := by
      rw [List.getElem_cons_drop, List.take_append_drop]
    have hset : m.set i a = m.take i ++ a :: m.drop (i + 1) := by
      rw [List.set_eq_take_append_cons_drop, if_pos hi]
    have eq1 : m ++ [a] = m.take i ++ m[i] :: (m.drop (i + 1) ++ [a]) := by
      conv_lhs => rw [← hm]
      rw [List.append_assoc, List.cons_append]
    have key : (m.take i ++ m[i] :: (m.drop (i + 1) ++ [a])).Perm
        (m[i] :: (m.take i ++ (m.drop (i + 1) ++ [a]))) := List.perm_middle
    have step2 : (m.take i ++ (m.drop (i + 1) ++ [a])).Perm
        (m.take i ++ a :: m.drop (i + 1)) :=
      List.Perm.append_left _ (List.perm_append_singleton a _)
    rw [hget, hset, eq1]
    exact key.trans (List.Perm.cons _ step2)
  · -- the removed slot is the final one: `i = m.length`
    have hi2 : i = m.length := by
      have := h
      simp only [List.length_append, List.length_singleton] at this
      omega
    subst hi2
    rw [List.set_append, if_neg (lt_irrefl _), Nat.sub_self]
    have hset : [a].set 0 a = [a] := rfl
    rw [hset, List.dropLast_concat]
    have hget : (m ++ [a]).get ⟨m.length, h⟩ = a := by simp
    rw [hget]
    exact List.perm_append_singleton _ _

theorem sweepLoopOb_conserves (screen_h dt : ℚ) :
    ∀ (n : ℕ) (live dead : List Obstacle) (i : ℕ), live.length - i ≤ n →
      (sweepLoopOb screen_h dt live dead i).1.length +
        (sweepLoopOb screen_h dt live dead i).2.length = live.length + dead.length := by
  intro n
  induction n with
  | zero =>
    intro live dead i hn
    have hge : ¬ i < live.length := by omega
    rw [sweepLoopOb.eq_def, dif_neg hge]
  | succ n ih =>
    intro live dead i hn
    by_cases hlt : i < live.length
    · rw [sweepLoopOb.eq_def, dif_pos hlt]
      set o2 : Obstacle :=
        ⟨⟨live[i].rect.x, live[i].rect.y + live[i].vy * dt, live[i].rect.w, live[i].rect.h⟩,
          live[i].vy⟩ with ho2
      by_cases hy : o2.rect.y > screen_h + 5
      · rw [if_pos hy]
        have h2 : i < (live.set i o2).length := by simpa using hlt
        have hlen := length_swapRemove (live.set i o2) i h2
        have hrec := ih (swapRemove (live.set i o2) i) (dead ++ [o2]) i
          (by rw [hlen]; simp only [List.length_set]; omega)
        rw [hrec, hlen]
        simp only [List.length_set, List.length_append, List.length_singleton]
        omega
      · rw [if_neg hy]
        have hrec := ih (live.set i o2) dead (i + 1)
          (by simp only [List.length_set]; omega)
        rw [hrec]
        simp only [List.length_set]
    · rw [sweepLoopOb.eq_def, dif_neg hlt]

theorem sweepLoopPu_conserves (screen_h dt : ℚ) :
    ∀ (n : ℕ) (live dead : List PowerUp) (i : ℕ), live.length - i ≤ n →
      (sweepLoopPu screen_h dt live dead i).1.length +
        (sweepLoopPu screen_h dt live dead i).2.length = live.length + dead.length := by
  intro n
  induction n with
  | zero =>
    intro live dead i hn
    have hge : ¬ i < live.length := by omega
    rw [sweepLoopPu.eq_def, dif_neg hge]
  | succ n ih =>
    intro live dead i hn
    by_cases hlt : i < live.length
    · rw [sweepLoopPu.eq_def, dif_pos hlt]
      set p2 : PowerUp :=
        ⟨⟨live[i].rect.x, live[i].rect.y + live[i].vy * dt, live[i].rect.w, live[i].rect.h⟩,
          live[i].vy, live[i].kind⟩ with hp2
      by_cases hy : p2.rect.y > screen_h + 5
      · rw [if_pos hy]
        have h2 : i < (live.set i p2).length := by simpa using hlt
        have hlen := length_swapRemove (live.set i p2) i h2
        have hrec := ih (swapRemove (live.set i p2) i) (dead ++ [p2]) i
          (by rw [hlen]; simp only [List.length_set]; omega)
        rw [hrec, hlen]
        simp only [List.length_set, List.length_append, List.length_singleton]
        omega
      · rw [if_neg hy]
        have hrec := ih (live.set i p2) dead (i + 1)
          (by simp only [List.length_set]; omega)
        rw [hrec]
        simp only [List.length_set]
    · rw [sweepLoopPu.eq_def, dif_neg hlt]

theorem clearLoopOb_eq :
    ∀ (n : ℕ) (live dead : List Obstacle), live.length ≤ n →
      clearLoopOb live dead = ([], dead ++ live.reverse) := by
  intro n
  induction n with
  | zero =>
    intro live dead hn
    have : live = [] := List.length_eq_zero.mp (by omega)
    subst this
    rw [clearLoopOb.eq_def]
    simp
  | succ n ih =>
    intro live dead hn
    rcases List.eq_nil_or_concat live with rfl | ⟨m, a, hl⟩
    · rw [clearLoopOb.eq_def]
      simp
    · rw [List.concat_eq_append] at hl
      subst hl
      rw [clearLoopOb.eq_def]
      split
      · next o hsome =>
          have ha : o = a := by
            rw [List.getLast?_concat] at hsome
            exact (Option.some_inj.mp hsome).symm
          rw [ha, List.dropLast_concat, ih m (dead ++ [a]) (by simp at hn; omega)]
          simp
      · next hnone =>
          rw [List.getLast?_concat] at hnone
          exact absurd hnone (by simp)

theorem pickLoopPu_conserves (player : Rect) :
    ∀ (n : ℕ) (live dead : List PowerUp) (i : ℕ), live.length - i ≤ n →
      (pickLoopPu live dead player i).2.1.length +
        (pickLoopPu live dead player i).2.2.length = live.length + dead.length := by
  intro n
  induction n with
  | zero =>
    intro live dead i hn
    have hge : ¬ i < live.length := by omega
    rw [pickLoopPu.eq_def, dif_neg hge]
  | succ n ih =>
    intro live dead i hn
    by_cases hlt : i < live.length
    · rw [pickLoopPu.eq_def, dif_pos hlt]
      by_cases hov : rects_overlap live[i].rect player
      · rw [if_pos hov]
        have hlen := length_swapRemove live i hlt
        simp only [hlen, List.length_append, List.length_singleton]
        omega
      · rw [if_neg hov]
        exact ih live dead (i + 1) (by omega)
    · rw [pickLoopPu.eq_def, dif_neg hlt]

theorem spawnOb_length (p : ObstaclePool) (r : Rect) (vy : ℚ) :
    (p.spawn r vy).live.length + (p.spawn r vy).dead.length =
      p.live.length + p.dead.length + (if p.dead.isEmpty then 1 else 0) := by
  rcases List.eq_nil_or_concat p.dead with hd | ⟨m, a, hd⟩
  · simp [ObstaclePool.spawn, hd]
  · rw [List.concat_eq_append] at hd
    simp [ObstaclePool.spawn, hd, List.getLast?_concat]
    omega

theorem spawnPu_length (p : PowerUpPool) (x y : ℚ) (k : PowerUpKind) :
    (p.spawn x y k).live.length + (p.spawn x y k).dead.length =
      p.live.length + p.dead.length + (if p.dead.isEmpty then 1 else 0) := by
  rcases List.eq_nil_or_concat p.dead with hd | ⟨m, a, hd⟩
  · simp [PowerUpPool.spawn, hd]
  · rw [List.concat_eq_append] at hd
    simp [PowerUpPool.spawn, hd, List.getLast?_concat]
    omega

theorem clear_all_spec (p : ObstaclePool) :
    p.clear_all = ⟨[], p.dead ++ p.live.reverse⟩ := by
  simp [ObstaclePool.clear_all, clearLoopOb_eq p.live.length p.live p.dead le_rfl]

theorem obApplyOp_length (p : ObstaclePool) (op : ObOp) :
    (p.applyOp op).live.length + (p.applyOp op).dead.length =
      p.live.length + p.dead.length + obConstructs p op := by
  cases op with
  | spawnOp r vy => simpa [ObstaclePool.applyOp, obConstructs] using spawnOb_length p r vy
  | sweepOp sh dt =>
      have := sweepLoopOb_conserves sh dt p.live.length p.live p.dead 0 (by omega)
      simpa [ObstaclePool.applyOp, ObstaclePool.update_and_sweep, obConstructs] using this
  | clearOp =>
      rw [ObstaclePool.applyOp, clear_all_spec]
      simp [obConstructs]
      omega

theorem puApplyOp_length (p : PowerUpPool) (op : PuOp) :
    (p.applyOp op).live.length + (p.applyOp op).dead.length =
      p.live.length + p.dead.length + puConstructs p op := by
  cases op with
  | spawnOp x y k => simpa [PowerUpPool.applyOp, puConstructs] using spawnPu_length p x y k
  | sweepOp sh dt =>
      have := sweepLoopPu_conserves sh dt p.live.length p.live p.dead 0 (by omega)
      simpa [PowerUpPool.applyOp, PowerUpPool.update_and_sweep, puConstructs] using this
  | pickOp pr =>
      have := pickLoopPu_conserves pr p.live.length p.live p.dead 0 (by omega)
      simpa [PowerUpPool.applyOp, PowerUpPool.pick_at, puConstructs] using this

theorem obRun_length (ops : List ObOp) :
    ∀ p : ObstaclePool, (obRun p ops).live.length + (obRun p ops).dead.length =
      p.live.length + p.dead.length + obNewCount p ops := by
  induction ops with
  | nil => intro p; simp [obRun, obNewCount]
  | cons op ops ih =>
      intro p
      have h1 : obRun p (op :: ops) = obRun (p.applyOp op) ops := rfl
      rw [h1, ih (p.applyOp op), obNewCount]
      have := obApplyOp_length p op
      omega

theorem puRun_length (ops : List PuOp) :
    ∀ p : PowerUpPool, (puRun p ops).live.length + (puRun p ops).dead.length =
      p.live.length + p.dead.length + puNewCount p ops := by
  induction ops with
  | nil => intro p; simp [puRun, puNewCount]
  | cons op ops ih =>
      intro p
      have h1 : puRun p (op :: ops) = puRun (p.applyOp op) ops := rfl
      rw [h1, ih (p.applyOp op), puNewCount]
      have := puApplyOp_length p op
      omega

/-- C5: after any sequence of pool operations (spawn / update_and_sweep /
clear_all for obstacles; spawn / update_and_sweep / pick_at for power-ups),
`live.len() + dead.len()` equals the prior total plus the number of objects
newly constructed, hence for a fresh pool it equals the total number of
objects ever constructed: no leak, no duplication. -/
theorem pool_conservation :
    (∀ (p : ObstaclePool) (ops : List ObOp),
        (obRun p ops).live.length + (obRun p ops).dead.length =
          p.live.length + p.dead.length + obNewCount p ops) ∧
    (∀ ops : List ObOp,
        (obRun ObstaclePool.new ops).live.length + (obRun ObstaclePool.new ops).dead.length =
          obNewCount ObstaclePool.new ops) ∧
    (∀ (p : PowerUpPool) (ops : List PuOp),
        (puRun p ops).live.length + (puRun p ops).dead.length =
          p.live.length + p.dead.length + puNewCount p ops) ∧
    (∀ ops : List PuOp,
        (puRun PowerUpPool.new ops).live.length + (puRun PowerUpPool.new ops).dead.length =
          puNewCount PowerUpPool.new ops) := by
  refine ⟨fun p ops => obRun_length ops p, fun ops => ?_,
    fun p ops => puRun_length ops p, fun ops => ?_⟩
  · simpa [ObstaclePool.new] using obRun_length ops ObstaclePool.new
  · simpa [PowerUpPool.new] using puRun_length ops PowerUpPool.new

theorem scoreLoop_spec_aux :
    ∀ (n : ℕ) (t : ℚ) (s : ℤ), 0 ≤ t → (⌊t * (5/2)⌋).toNat ≤ n →
      scoreLoop t s = (t - 2/5 * ((⌊t / (2/5)⌋ : ℤ) : ℚ), s + ⌊t / (2/5)⌋) := by
  have base : ∀ (t : ℚ) (s : ℤ), 0 ≤ t → ¬ (t ≥ 2/5) →
      scoreLoop t s = (t - 2/5 * ((⌊t / (2/5)⌋ : ℤ) : ℚ), s + ⌊t / (2/5)⌋) := by
    intro t s ht hlt
    have hfl : ⌊t / (2/5)⌋ = 0 := by
      rw [Int.floor_eq_zero_iff]
      constructor
      · positivity
      · rw [div_lt_one (by norm_num)]
        linarith [not_le.mp hlt]
    rw [scoreLoop.eq_def, dif_neg hlt, hfl]
    norm_num
  intro n
  induction n with
  | zero =>
    intro t s ht hn
    have hlt : ¬ (t ≥ 2/5) := by
      intro hge
      have h1 : (1 : ℤ) ≤ ⌊t * (5/2)⌋ := by
        rw [Int.le_floor]
        push_cast
        linarith
      omega
    exact base t s ht hlt
  | succ n ih =>
    intro t s ht hn
    by_cases hge : t ≥ 2/5
    · rw [scoreLoop.eq_def, dif_pos hge]
      have h0 : 0 ≤ t - 2/5 := by linarith
      have hfs : ⌊(t - 2/5) * (5/2)⌋ = ⌊t * (5/2)⌋ - 1 := by
        rw [show (t - 2/5) * (5/2) = t * (5/2) - 1 by ring, Int.floor_sub_one]
      have h1 : (1 : ℤ) ≤ ⌊t * (5/2)⌋ := by
        rw [Int.le_floor]
        push_cast
        linarith
      have hm : (⌊(t - 2/5) * (5/2)⌋).toNat ≤ n := by omega
      rw [ih (t - 2/5) (s + 1) h0 hm]
      have hfd : ⌊(t - 2/5) / (2/5)⌋ = ⌊t / (2/5)⌋ - 1 := by
        rw [show (t - 2/5) / (2/5) = t / (2/5) - 1 by ring, Int.floor_sub_one]
      rw [hfd, Prod.mk.injEq]
      refine ⟨?_, ?_⟩
      · push_cast
        ring
      · ring
    · exact base t s ht hge

theorem scoreLoop_eval (t : ℚ) (s : ℤ) (ht : 0 ≤ t) :
    scoreLoop t s = (t - 2/5 * ((⌊t / (2/5)⌋ : ℤ) : ℚ), s + ⌊t / (2/5)⌋) :=
  scoreLoop_spec_aux (⌊t * (5/2)⌋).toNat t s ht le_rfl

theorem scoreLoop_fst_bounds (t : ℚ) (s : ℤ) (ht : 0 ≤ t) :
    0 ≤ (scoreLoop t s).1 ∧ (scoreLoop t s).1 < 2/5 := by
  rw [scoreLoop_eval t s ht]
  have hf1 := Int.fract_nonneg (t / (2/5))
  have hf2 := Int.fract_lt_one (t / (2/5))
  have he : t - 2/5 * ((⌊t / (2/5)⌋ : ℤ) : ℚ) = 2/5 * Int.fract (t / (2/5)) := by
    rw [Int.fract]
    field_simp
    ring
  constructor
  · rw [he]
    positivity
  · rw [he]
    nlinarith

theorem collisionStep_preserves (g : Game) :
    (collisionStep g).1.time_tick = g.time_tick ∧ (collisionStep g).1.score = g.score ∧
    (collisionStep g).1.player = g.player ∧ (collisionStep g).1.slow_timer = g.slow_timer ∧
    (collisionStep g).1.spawn_interval = g.spawn_interval ∧
    (collisionStep g).1.fall_speed = g.fall_speed ∧ (collisionStep g).1.pus = g.pus ∧
    (collisionStep g).1.spawn_timer = g.spawn_timer ∧
    (collisionStep g).1.pu_spawn_timer = g.pu_spawn_timer := by
  unfold collisionStep
  split
  · split <;> exact ⟨rfl, rfl, rfl, rfl, rfl, rfl, rfl, rfl, rfl⟩
  · exact ⟨rfl, rfl, rfl, rfl, rfl, rfl, rfl, rfl, rfl⟩

theorem pickupStep_preserves (g : Game) :
    (pickupStep g).mode = g.mode ∧ (pickupStep g).player = g.player ∧
    (pickupStep g).score = g.score ∧ (pickupStep g).time_tick = g.time_tick ∧
    (pickupStep g).best_score = g.best_score ∧ (pickupStep g).fall_speed = g.fall_speed ∧
    (pickupStep g).spawn_interval = g.spawn_interval ∧
    (pickupStep g).spawn_timer = g.spawn_timer ∧
    (pickupStep g).pu_spawn_timer = g.pu_spawn_timer := by
  rcases hk : (g.pus.pick_at (pboxRect g.player.x)).1 with _ | k
  · simp [pickupStep, hk]
  · cases k <;> simp [pickupStep, hk, applyPowerUp]

theorem modeStep_playing (g : Game) (inp : TickInput) (h : g.mode = GameMode.Playing) :
    modeStep g inp = playingStep g inp := by
  unfold modeStep
  rw [h]

theorem playing_tick_score (g : Game) (inp : TickInput) (h : g.mode = GameMode.Playing) :
    (update_game g inp).1.time_tick = (scoreLoop (g.time_tick + inp.dt) g.score).1 ∧
    (update_game g inp).1.score = (scoreLoop (g.time_tick + inp.dt) g.score).2 := by
  obtain ⟨hc1, hc2, _⟩ := collisionStep_preserves (afterPickup g inp)
  obtain ⟨_, _, hp3, hp4, _⟩ := pickupStep_preserves (prePickup g inp)
  have hmode := modeStep_playing g inp h
  have hplay1 : (playingStep g inp).1.time_tick =
      (collisionStep (afterPickup g inp)).1.time_tick := by
    unfold playingStep
    cases hpk : inp.keyP <;> simp [hpk]
  have hplay2 : (playingStep g inp).1.score = (collisionStep (afterPickup g inp)).1.score := by
    unfold playingStep
    cases hpk : inp.keyP <;> simp [hpk]
  constructor
  · show (modeStep g inp).1.time_tick = _
    rw [hmode, hplay1, hc1]
    show (pickupStep (prePickup g inp)).time_tick = _
    rw [hp4]
    rfl
  · show (modeStep g inp).1.score = _
    rw [hmode, hplay2, hc2]
    show (pickupStep (prePickup g inp)).score = _
    rw [hp3]
    rfl

theorem score_run_aux :
    ∀ (l : List TickInput) (g : Game),
      (∀ inp ∈ l, 0 ≤ inp.dt) →
      (∀ k, k < l.length → (runTicks g (l.take k)).mode = GameMode.Playing) →
      0 ≤ g.time_tick → g.time_tick < 2/5 →
      (runTicks g l).score =
        g.score + ⌊(g.time_tick + (l.map TickInput.dt).sum) / (2/5)⌋ ∧
      (runTicks g l).time_tick =
        g.time_tick + (l.map TickInput.dt).sum -
          2/5 * ((⌊(g.time_tick + (l.map TickInput.dt).sum) / (2/5)⌋ : ℤ) : ℚ) := by
  intro l
  induction l with
  | nil =>
    intro g _ _ h0 h1
    have hfl : ⌊g.time_tick / (2/5)⌋ = 0 := by
      rw [Int.floor_eq_zero_iff]
      constructor
      · positivity
      · rw [div_lt_one (by norm_num)]
        linarith
    simp [runTicks, hfl]
  | cons inp l ih =>
    intro g hdts hmodes h0 h1
    have hmode0 : g.mode = GameMode.Playing := by
      have := hmodes 0 (by simp)
      simpa [runTicks] using this
    have hdt0 : 0 ≤ inp.dt := hdts inp (List.mem_cons_self inp l)
    obtain ⟨htt, hsc⟩ := playing_tick_score g inp hmode0
    have ht0 : 0 ≤ g.time_tick + inp.dt := by linarith
    have heval := scoreLoop_eval (g.time_tick + inp.dt) g.score ht0
    obtain ⟨hbl, hbr⟩ := scoreLoop_fst_bounds (g.time_tick + inp.dt) g.score ht0
    set g1 := (update_game g inp).1 with hg1
    have hrun : runTicks g (inp :: l) = runTicks g1 l := rfl
    have ih1 := ih g1 (fun j hj => hdts j (List.mem_cons_of_mem inp hj))
      (fun k hk => by
        have := hmodes (k + 1) (by simpa using hk)
        simpa [runTicks, List.take_succ_cons] using this)
      (htt ▸ hbl) (htt ▸ hbr)
    rw [hrun]
    obtain ⟨ihs, iht⟩ := ih1
    have hg1tt : g1.time_tick =
        g.time_tick + inp.dt -
          2/5 * ((⌊(g.time_tick + inp.dt) / (2/5)⌋ : ℤ) : ℚ) := by
      rw [htt, heval]
    have hg1sc : g1.score = g.score + ⌊(g.time_tick + inp.dt) / (2/5)⌋ := by
      rw [hsc, heval]
    have hdiv : (g1.time_tick + (l.map TickInput.dt).sum) / (2/5) =
        (g.time_tick + inp.dt + (l.map TickInput.dt).sum) / (2/5) -
          ((⌊(g.time_tick + inp.dt) / (2/5)⌋ : ℤ) : ℚ) := by
      rw [hg1tt]
      ring
    have hflr : ⌊(g1.time_tick + (l.map TickInput.dt).sum) / (2/5)⌋ =
        ⌊(g.time_tick + inp.dt + (l.map TickInput.dt).sum) / (2/5)⌋ -
          ⌊(g.time_tick + inp.dt) / (2/5)⌋ := by
      rw [hdiv, Int.floor_sub_int]
    constructor
    · rw [ihs, hg1sc, hflr]
      simp only [List.map_cons, List.sum_cons]
      push_cast
      ring_nf
    · rw [iht, hflr, hg1tt]
      simp only [List.map_cons, List.sum_cons]
      push_cast
      rw [show g.time_tick + inp.dt + (l.map TickInput.dt).sum =
        g.time_tick + (inp.dt + (l.map TickInput.dt).sum) by ring]
      ring

/-- C2: starting a round (`time_tick = 0`, `score = 0`, mode `Playing`) and
running any sequence of ticks that all begin in `Playing` mode, the final
score equals `⌊(Σ dt) / 0.4⌋`, independently of how the total time is
partitioned into ticks: the accumulator retains the remainder across
ticks. -/
theorem score_accumulator (g : Game) (l : List TickInput)
    (ht : g.time_tick = 0) (hs : g.score = 0)
    (hdt : ∀ inp ∈ l, 0 ≤ inp.dt)
    (hmode : ∀ k, k < l.length → (runTicks g (l.take k)).mode = GameMode.Playing) :
    (runTicks g l).score = ⌊(l.map TickInput.dt).sum / (2/5)⌋ := by
  have h := (score_run_aux l g hdt hmode (by rw [ht]) (by rw [ht]; norm_num)).1
  rw [h, hs, ht]
  simp

theorem clamp_bounds (v lo hi : ℚ) (h : lo ≤ hi) : lo ≤ clamp v lo hi ∧ clamp v lo hi ≤ hi := by
  unfold clamp
  exact ⟨le_min (le_max_right v lo) h, min_le_right _ _⟩

theorem prePickup_player (g : Game) (inp : TickInput) :
    (prePickup g inp).player.vx =
      clamp (if |inp.dir| > 0 then g.player.vx + inp.dir * PLAYER_ACC * inp.dt
        else g.player.vx * inp.decayMul) (-PLAYER_SPEED_MAX) PLAYER_SPEED_MAX ∧
    (prePickup g inp).player.x =
      clamp (g.player.x + (prePickup g inp).player.vx * inp.dt) 0 (inp.screenW - PLAYER_W) :=
  ⟨rfl, rfl⟩

theorem playingStep_player (g : Game) (inp : TickInput) :
    (playingStep g inp).1.player = (prePickup g inp).player := by
  have h1 : (playingStep g inp).1.player = (collisionStep (afterPickup g inp)).1.player := by
    unfold playingStep
    cases hpk : inp.keyP <;> simp [hpk]
  rw [h1, (collisionStep_preserves _).2.2.1]
  exact (pickupStep_preserves _).2.1

theorem playing_tick_player_bounds (g : Game) (inp : TickInput)
    (h : g.mode = GameMode.Playing) (hW : PLAYER_W ≤ inp.screenW) :
    0 ≤ (update_game g inp).1.player.x ∧
    (update_game g inp).1.player.x ≤ inp.screenW - PLAYER_W ∧
    -PLAYER_SPEED_MAX ≤ (update_game g inp).1.player.vx ∧
    (update_game g inp).1.player.vx ≤ PLAYER_SPEED_MAX := by
  have e1 : (update_game g inp).1.player = (modeStep g inp).1.player := rfl
  rw [e1, modeStep_playing g inp h, playingStep_player g inp]
  obtain ⟨hvx, hx⟩ := prePickup_player g inp
  have hb1 := clamp_bounds (g.player.x + (prePickup g inp).player.vx * inp.dt) 0
    (inp.screenW - PLAYER_W) (by linarith)
  have hb2 := clamp_bounds (if |inp.dir| > 0 then g.player.vx + inp.dir * PLAYER_ACC * inp.dt
    else g.player.vx * inp.decayMul) (-PLAYER_SPEED_MAX) PLAYER_SPEED_MAX
    (by norm_num [PLAYER_SPEED_MAX])
  rw [hx, hvx]
  exact ⟨hb1.1, hb1.2, hb2.1, hb2.2⟩

theorem reset_round_player (g : Game) (W : ℚ) :
    (reset_round g W).player = ⟨W * (1/2) - PLAYER_W * (1/2), 0⟩ := rfl

theorem reset_player_bounds (W : ℚ) (hW : PLAYER_W ≤ W) :
    0 ≤ W * (1/2) - PLAYER_W * (1/2) ∧ W * (1/2) - PLAYER_W * (1/2) ≤ W - PLAYER_W ∧
    -PLAYER_SPEED_MAX ≤ (0 : ℚ) ∧ (0 : ℚ) ≤ PLAYER_SPEED_MAX := by
  rw [PLAYER_W] at *
  norm_num [PLAYER_SPEED_MAX]
  constructor <;> linarith

theorem modeStep_player_cases (g : Game) (inp : TickInput) :
    (modeStep g inp).1.player = g.player ∨
    (modeStep g inp).1.player = ⟨inp.screenW * (1/2) - PLAYER_W * (1/2), 0⟩ ∨
    (g.mode = GameMode.Playing ∧ (modeStep g inp).1.player = (prePickup g inp).player) := by
  cases hm : g.mode with
  | Menu =>
    cases hs : inp.keySpace
    · exact Or.inl (by simp [modeStep, hm, hs])
    · exact Or.inr (Or.inl (by simp [modeStep, hm, hs, reset_round]))
  | Playing =>
    exact Or.inr (Or.inr ⟨rfl, by rw [modeStep_playing g inp hm]; exact playingStep_player g inp⟩)
  | Paused =>
    cases hr : inp.keyR
    · refine Or.inl ?_
      cases hp : inp.keyP <;> cases he : inp.keyEsc <;> simp [modeStep, hm, hr, hp, he]
    · refine Or.inr (Or.inl ?_)
      cases hp : inp.keyP <;> cases he : inp.keyEsc <;>
        simp [modeStep, hm, hr, hp, he, reset_round]
  | GameOver =>
    cases hr : inp.keyR
    · refine Or.inl ?_
      cases he : inp.keyEsc <;> simp [modeStep, hm, hr, he]
    · refine Or.inr (Or.inl ?_)
      cases he : inp.keyEsc <;> simp [modeStep, hm, hr, he, reset_round]

theorem step_player_bounds (W : ℚ) (hW : PLAYER_W ≤ W) (g : Game) (inp : TickInput)
    (hsw : inp.screenW = W)
    (hx : 0 ≤ g.player.x ∧ g.player.x ≤ W - PLAYER_W ∧
      -PLAYER_SPEED_MAX ≤ g.player.vx ∧ g.player.vx ≤ PLAYER_SPEED_MAX) :
    0 ≤ (update_game g inp).1.player.x ∧
    (update_game g inp).1.player.x ≤ W - PLAYER_W ∧
    -PLAYER_SPEED_MAX ≤ (update_game g inp).1.player.vx ∧
    (update_game g inp).1.player.vx ≤ PLAYER_SPEED_MAX := by
  have e1 : (update_game g inp).1.player = (modeStep g inp).1.player := rfl
  rcases modeStep_player_cases g inp with hcase | hcase | ⟨hmode, hcase⟩
  · rw [e1, hcase]
    exact hx
  · rw [e1, hcase, hsw]
    exact reset_player_bounds W hW
  · have := playing_tick_player_bounds g inp hmode (by rw [hsw]; exact hW)
    rw [hsw] at this
    exact this

theorem run_player_bounds (W : ℚ) (hW : PLAYER_W ≤ W) :
    ∀ (l : List TickInput) (g : Game), (∀ inp ∈ l, inp.screenW = W) →
      (0 ≤ g.player.x ∧ g.player.x ≤ W - PLAYER_W ∧
        -PLAYER_SPEED_MAX ≤ g.player.vx ∧ g.player.vx ≤ PLAYER_SPEED_MAX) →
      0 ≤ (runTicks g l).player.x ∧ (runTicks g l).player.x ≤ W - PLAYER_W ∧
      -PLAYER_SPEED_MAX ≤ (runTicks g l).player.vx ∧
      (runTicks g l).player.vx ≤ PLAYER_SPEED_MAX := by
  intro l
  induction l with
  | nil => intro g _ hb; simpa [runTicks] using hb
  | cons inp l ih =>
    intro g hsw hb
    have hrun : runTicks g (inp :: l) = runTicks (update_game g inp).1 l := rfl
    rw [hrun]
    exact ih (update_game g inp).1 (fun j hj => hsw j (List.mem_cons_of_mem inp hj))
      (step_player_bounds W hW g inp (hsw inp (List.mem_cons_self inp l)) hb)

/-- C6: with a fixed screen width `W ≥ PLAYER_W`, starting from `main`'s
initial state, after any number of ticks under any input history the player
position stays in `[0, W - PLAYER_W]` and the velocity in
`[-PLAYER_SPEED_MAX, PLAYER_SPEED_MAX]`. -/
theorem player_bounds (W : ℚ) (best : ℤ) (l : List TickInput) (hW : PLAYER_W ≤ W)
    (hsw : ∀ inp ∈ l, inp.screenW = W) :
    0 ≤ (runTicks (mainInit best W) l).player.x ∧
    (runTicks (mainInit best W) l).player.x ≤ W - PLAYER_W ∧
    -PLAYER_SPEED_MAX ≤ (runTicks (mainInit best W) l).player.vx ∧
    (runTicks (mainInit best W) l).player.vx ≤ PLAYER_SPEED_MAX := by
  apply run_player_bounds W hW l (mainInit best W) hsw
  have h0 := reset_player_bounds W hW
  exact ⟨h0.1, h0.2.1, h0.2.2.1, h0.2.2.2⟩

theorem player_bounds_witness :
    0 ≤ (runTicks (mainInit 0 800) [inp0]).player.x ∧
    (runTicks (mainInit 0 800) [inp0]).player.x ≤ 800 - PLAYER_W ∧
    -PLAYER_SPEED_MAX ≤ (runTicks (mainInit 0 800) [inp0]).player.vx ∧
    (runTicks (mainInit 0 800) [inp0]).player.vx ≤ PLAYER_SPEED_MAX :=
  player_bounds 800 0 [inp0] (by norm_num [PLAYER_W])
    (by intro i hi; simp only [List.mem_singleton] at hi; rw [hi]; rfl)

theorem collisionStep_shield_le (g : Game) : (collisionStep g).1.shield ≤ g.shield := by
  unfold collisionStep
  split
  · split
    · simp [Nat.sub_le]
    · simp
  · simp

theorem pickupStep_shield_le (g : Game) (h : g.shield ≤ 3) : (pickupStep g).shield ≤ 3 := by
  rcases hk : (g.pus.pick_at (pboxRect g.player.x)).1 with _ | k
  · simpa [pickupStep, hk] using h
  · cases k <;> simp [pickupStep, hk, applyPowerUp] <;> omega

theorem playingStep_shield_le (g : Game) (inp : TickInput) (h : g.shield ≤ 3) :
    (playingStep g inp).1.shield ≤ 3 := by
  have h1 : (playingStep g inp).1.shield = (collisionStep (afterPickup g inp)).1.shield := by
    unfold playingStep
    cases hpk : inp.keyP <;> simp [hpk]
  rw [h1]
  have h2 := collisionStep_shield_le (afterPickup g inp)
  have h3 : (afterPickup g inp).shield ≤ 3 := by
    unfold afterPickup
    exact pickupStep_shield_le (prePickup g inp) (by show g.shield ≤ 3; exact h)
  omega

theorem modeStep_shield_le (g : Game) (inp : TickInput) (h : g.shield ≤ 3) :
    (modeStep g inp).1.shield ≤ 3 := by
  cases hm : g.mode with
  | Menu =>
    cases hs : inp.keySpace <;> simp [modeStep, hm, hs, reset_round] <;> exact h
  | Playing =>
    rw [modeStep_playing g inp hm]
    exact playingStep_shield_le g inp h
  | Paused =>
    cases hr : inp.keyR <;> cases hp : inp.keyP <;> cases he : inp.keyEsc <;>
      simp [modeStep, hm, hr, hp, he, reset_round] <;> exact h
  | GameOver =>
    cases hr : inp.keyR <;> cases he : inp.keyEsc <;>
      simp [modeStep, hm, hr, he, reset_round] <;> exact h

theorem update_shield_le (g : Game) (inp : TickInput) (h : g.shield ≤ 3) :
    (update_game g inp).1.shield ≤ 3 := by
  have e1 : (update_game g inp).1.shield = (modeStep g inp).1.shield := rfl
  rw [e1]
  exact modeStep_shield_le g inp h

theorem reachable_shield_le (g : Game) (h : Reachable g) : g.shield ≤ 3 := by
  induction h with
  | new best => simp [Game.new]
  | start best screenW => simp [mainInit, Game.new]
  | step g inp _ ih => exact update_shield_le g inp ih

theorem collisionStep_shake_nonneg (g : Game) (h : 0 ≤ g.shake) :
    0 ≤ (collisionStep g).1.shake := by
  unfold collisionStep
  split
  · split
    · simp only
      have : (0 : ℚ) ≤ 4 := by norm_num
      exact le_trans this (by simp [le_max_right])
    · norm_num
  · simpa using h

theorem pickupStep_shake_nonneg (g : Game) (h : 0 ≤ g.shake) :
    0 ≤ (pickupStep g).shake := by
  rcases hk : (g.pus.pick_at (pboxRect g.player.x)).1 with _ | k
  · simpa [pickupStep, hk] using h
  · cases k <;> simp [pickupStep, hk, applyPowerUp] <;> first | exact h | norm_num

theorem playingStep_shake_nonneg (g : Game) (inp : TickInput) (h : 0 ≤ g.shake) :
    0 ≤ (playingStep g inp).1.shake := by
  have h1 : (playingStep g inp).1.shake = (collisionStep (afterPickup g inp)).1.shake := by
    unfold playingStep
    cases hpk : inp.keyP <;> simp [hpk]
  rw [h1]
  apply collisionStep_shake_nonneg
  exact pickupStep_shake_nonneg (prePickup g inp) (by show (0:ℚ) ≤ g.shake; exact h)

theorem modeStep_shake_nonneg (g : Game) (inp : TickInput) (h : 0 ≤ g.shake) :
    0 ≤ (modeStep g inp).1.shake := by
  cases hm : g.mode with
  | Menu =>
    cases hs : inp.keySpace <;> simp [modeStep, hm, hs, reset_round] <;> exact h
  | Playing =>
    rw [modeStep_playing g inp hm]
    exact playingStep_shake_nonneg g inp h
  | Paused =>
    cases hr : inp.keyR <;> cases hp : inp.keyP <;> cases he : inp.keyEsc <;>
      simp [modeStep, hm, hr, hp, he, reset_round] <;> exact h
  | GameOver =>
    cases hr : inp.keyR <;> cases he : inp.keyEsc <;>
      simp [modeStep, hm, hr, he, reset_round] <;> exact h

theorem update_shake_nonneg (g : Game) (inp : TickInput) (h : 0 ≤ g.shake) :
    0 ≤ (update_game g inp).1.shake := by
  have hm := modeStep_shake_nonneg g inp h
  show (0 : ℚ) ≤ if (modeStep g inp).1.shake > 0 then
    max ((modeStep g inp).1.shake - 60 * inp.dt) 0 else (modeStep g inp).1.shake
  by_cases hpos : (modeStep g inp).1.shake > 0
  · rw [if_pos hpos]
    exact le_max_right _ _
  · rw [if_neg hpos]
    exact hm

theorem reachable_shake_nonneg (g : Game) (h : Reachable g) : 0 ≤ g.shake := by
  induction h with
  | new best => simp [Game.new]
  | start best screenW => simp [mainInit, Game.new]
  | step g inp _ ih => exact update_shake_nonneg g inp ih

/-- C7: in every reachable game state the shield charge lies in `[0, 3]`
(`shield` is a natural number, so `0 ≤ shield` is intrinsic); a Shield
pickup increments it capped at 3, and a shielded collision decrements it by
exactly one. -/
theorem shield_invariant :
    (∀ g : Game, Reachable g → g.shield ≤ 3) ∧
    (∀ g : Game, (applyPowerUp g PowerUpKind.Shield).shield = min (g.shield + 1) 3) ∧
    (∀ (g : Game) (i : ℕ),
      List.findIdx? (fun o => rects_overlap o.rect (hitRect g.player.x)) g.obs.live = some i →
      0 < g.shield → (collisionStep g).1.shield = g.shield - 1) := by
  refine ⟨reachable_shield_le, fun g => rfl, fun g i hidx hs => ?_⟩
  unfold collisionStep
  rw [hidx]
  simp [hs]

theorem shield_invariant_witness :
    (Game.new 0).shield ≤ 3 ∧
    (applyPowerUp (Game.new 0) PowerUpKind.Shield).shield = min ((Game.new 0).shield + 1) 3 :=
  ⟨shield_invariant.1 (Game.new 0) (Reachable.new 0), shield_invariant.2.1 (Game.new 0)⟩

/-- C10: every reachable state has nonnegative shake, and at the end of
every tick — in all four modes alike — the shake after the mode logic is
decayed by `60 * dt`, floored at zero. -/
theorem shake_decay (g : Game) (inp : TickInput) (hg : Reachable g) (hdt : 0 ≤ inp.dt) :
    0 ≤ g.shake ∧
    (update_game g inp).1.shake = max ((modeStep g inp).1.shake - 60 * inp.dt) 0 := by
  have h0 := reachable_shake_nonneg g hg
  refine ⟨h0, ?_⟩
  have hm := modeStep_shake_nonneg g inp h0
  show (if (modeStep g inp).1.shake > 0 then
    max ((modeStep g inp).1.shake - 60 * inp.dt) 0 else (modeStep g inp).1.shake) = _
  by_cases hpos : (modeStep g inp).1.shake > 0
  · rw [if_pos hpos]
  · rw [if_neg hpos]
    have hz : (modeStep g inp).1.shake = 0 := le_antisymm (not_lt.mp hpos) hm
    rw [hz, max_eq_right (by linarith)]

theorem shake_decay_witness :
    0 ≤ (Game.new 0).shake ∧
    (update_game (Game.new 0) inp0).1.shake =
      max ((modeStep (Game.new 0) inp0).1.shake - 60 * inp0.dt) 0 :=
  shake_decay (Game.new 0) inp0 (Reachable.new 0) (by norm_num [inp0])

theorem pickLoopPu_none :
    ∀ (n : ℕ) (live dead : List PowerUp) (player : Rect) (i : ℕ), live.length - i ≤ n →
      (∀ k (hk : k < live.length), i ≤ k → rects_overlap (live.get ⟨k, hk⟩).rect player = false) →
      pickLoopPu live dead player i = (none, live, dead) := by
  intro n
  induction n with
  | zero =>
    intro live dead player i hn _
    have hge : ¬ i < live.length := by omega
    rw [pickLoopPu.eq_def, dif_neg hge]
  | succ n ih =>
    intro live dead player i hn hno
    by_cases hlt : i < live.length
    · rw [pickLoopPu.eq_def, dif_pos hlt]
      have hfalse : rects_overlap live[i].rect player = false := by
        have := hno i hlt le_rfl
        simpa using this
      rw [hfalse]
      simp only [Bool.false_eq_true, if_false]
      exact ih live dead player (i + 1) (by omega) (fun k hk hik => hno k hk (by omega))
    · rw [pickLoopPu.eq_def, dif_neg hlt]

theorem pickLoopPu_found :
    ∀ (n : ℕ) (live dead : List PowerUp) (player : Rect) (j : ℕ) (hj : j < live.length),
      (∀ k (hk : k < j), rects_overlap (live.get ⟨k, lt_trans hk hj⟩).rect player = false) →
      rects_overlap (live.get ⟨j, hj⟩).rect player = true →
      ∀ i, i ≤ j → j - i ≤ n →
        pickLoopPu live dead player i =
          (some (live.get ⟨j, hj⟩).kind, swapRemove live j, dead ++ [live.get ⟨j, hj⟩]) := by
  intro n
  induction n with
  | zero =>
    intro live dead player j hj hfirst hov i hij hn
    have hij2 : i = j := by omega
    subst hij2
    rw [pickLoopPu.eq_def, dif_pos hj]
    have hov2 : rects_overlap live[i].rect player = true := by simpa using hov
    rw [hov2]
    simp
  | succ n ih =>
    intro live dead player j hj hfirst hov i hij hn
    by_cases hieq : i = j
    · subst hieq
      rw [pickLoopPu.eq_def, dif_pos hj]
      have hov2 : rects_overlap live[i].rect player = true := by simpa using hov
      rw [hov2]
      simp
    · have hilt : i < j := lt_of_le_of_ne hij hieq
      have hlt : i < live.length := lt_trans hilt hj
      rw [pickLoopPu.eq_def, dif_pos hlt]
      have hfalse : rects_overlap live[i].rect player = false := by
        have := hfirst i hilt
        simpa using this
      rw [hfalse]
      simp only [Bool.false_eq_true, if_false]
      exact ih live dead player j hj hfirst hov (i + 1) (by omega) (by omega)

/-- C8: `pick_at` scans live power-ups in pool order; if no live power-up
overlaps the player it returns `none` and leaves the pool unchanged, and
otherwise it returns the kind of the first overlapping power-up, moves
exactly that object from `live` to the recycle list (so the original live
list is a permutation of the picked element plus the new live list), at
most one pickup per call. -/
theorem pick_at_first_match :
    (∀ (p : PowerUpPool) (pr : Rect),
        (∀ u ∈ p.live, rects_overlap u.rect pr = false) →
        p.pick_at pr = (none, p)) ∧
    (∀ (p : PowerUpPool) (pr : Rect) (j : ℕ) (hj : j < p.live.length),
        (∀ k (hk : k < j), rects_overlap (p.live.get ⟨k, lt_trans hk hj⟩).rect pr = false) →
        rects_overlap (p.live.get ⟨j, hj⟩).rect pr = true →
        (p.pick_at pr).1 = some (p.live.get ⟨j, hj⟩).kind ∧
        (p.pick_at pr).2.live = swapRemove p.live j ∧
        (p.pick_at pr).2.dead = p.dead ++ [p.live.get ⟨j, hj⟩] ∧
        p.live.Perm ((p.live.get ⟨j, hj⟩) :: (p.pick_at pr).2.live)) := by
  constructor
  · intro p pr hno
    have h := pickLoopPu_none p.live.length p.live p.dead pr 0 (by omega)
      (fun k hk _ => hno _ (List.get_mem p.live k hk))
    unfold PowerUpPool.pick_at
    rw [h]
  · intro p pr j hj hfirst hov
    have h := pickLoopPu_found j p.live p.dead pr j hj hfirst hov 0 (Nat.zero_le j) (by omega)
    unfold PowerUpPool.pick_at
    rw [h]
    exact ⟨rfl, rfl, rfl, swapRemove_perm p.live j hj⟩

theorem pick_at_first_match_witness :
    ((PowerUpPool.mk
        [⟨⟨0, 0, 28, 28⟩, 120, PowerUpKind.Slow⟩, ⟨⟨350, 560, 28, 28⟩, 120, PowerUpKind.Bomb⟩]
        []).pick_at (pboxRect 360)).1 = some PowerUpKind.Bomb ∧
    ((PowerUpPool.mk
        [⟨⟨0, 0, 28, 28⟩, 120, PowerUpKind.Slow⟩, ⟨⟨350, 560, 28, 28⟩, 120, PowerUpKind.Bomb⟩]
        []).pick_at (pboxRect 360)).2.live =
      swapRemove
        [⟨⟨0, 0, 28, 28⟩, 120, PowerUpKind.Slow⟩, ⟨⟨350, 560, 28, 28⟩, 120, PowerUpKind.Bomb⟩]
        1 ∧
    ((PowerUpPool.mk
        [⟨⟨0, 0, 28, 28⟩, 120, PowerUpKind.Slow⟩, ⟨⟨350, 560, 28, 28⟩, 120, PowerUpKind.Bomb⟩]
        []).pick_at (pboxRect 360)).2.dead =
      [⟨⟨350, 560, 28, 28⟩, 120, PowerUpKind.Bomb⟩] := by
  have h := pick_at_first_match.2
    (PowerUpPool.mk
      [⟨⟨0, 0, 28, 28⟩, 120, PowerUpKind.Slow⟩, ⟨⟨350, 560, 28, 28⟩, 120, PowerUpKind.Bomb⟩] [])
    (pboxRect 360) 1 (by decide)
    (by
      intro k hk
      have hk0 : k = 0 := by omega
      subst hk0
      norm_num [rects_overlap, pboxRect, PLAYER_Y, PLAYER_W, PLAYER_H, List.get])
    (by norm_num [rects_overlap, pboxRect, PLAYER_Y, PLAYER_W, PLAYER_H, List.get])
  exact ⟨h.1, h.2.1, h.2.2.1⟩

theorem update_fall_speed (g : Game) (inp : TickInput) (h : g.mode = GameMode.Playing) :
    (update_game g inp).1.fall_speed =
      (OB_START_SPEED + inp.now * OB_ACC_PER_SEC) *
        (if 0 < slowAfter g inp.dt then SLOW_FACTOR else 1) := by
  have e1 : (update_game g inp).1.fall_speed = (modeStep g inp).1.fall_speed := rfl
  rw [e1, modeStep_playing g inp h]
  have h2 : (playingStep g inp).1.fall_speed =
      (collisionStep (afterPickup g inp)).1.fall_speed := by
    unfold playingStep
    cases hpk : inp.keyP <;> simp [hpk]
  obtain ⟨_, _, _, _, _, hcf, _⟩ := collisionStep_preserves (afterPickup g inp)
  obtain ⟨_, _, _, _, _, hpf, _⟩ := pickupStep_preserves (prePickup g inp)
  rw [h2, hcf]
  show (pickupStep (prePickup g inp)).fall_speed = _
  rw [hpf]
  rfl

theorem collisionStep_none (g : Game)
    (h : List.findIdx? (fun o => rects_overlap o.rect (hitRect g.player.x)) g.obs.live = none) :
    collisionStep g = (g, []) := by
  unfold collisionStep
  rw [h]

theorem collisionStep_fatal (g : Game) (i : ℕ)
    (hidx : List.findIdx? (fun o => rects_overlap o.rect (hitRect g.player.x)) g.obs.live
      = some i)
    (hs : g.shield = 0) :
    collisionStep g =
      ({ g with best_score := max g.best_score g.score, mode := GameMode.GameOver, shake := 10 },
        [max g.best_score g.score]) := by
  unfold collisionStep
  rw [hidx]
  simp [hs]

theorem bomb_pickup_effect (g : Game)
    (h : (g.pus.pick_at (pboxRect g.player.x)).1 = some PowerUpKind.Bomb) :
    (pickupStep g).obs.live = [] ∧
    (pickupStep g).obs.dead.length = g.obs.dead.length + g.obs.live.length ∧
    (pickupStep g).shake = 6 ∧
    (pickupStep g).shield = g.shield ∧
    (pickupStep g).mode = g.mode ∧
    (pickupStep g).player = g.player := by
  have hred : pickupStep g =
      applyPowerUp { g with pus := (g.pus.pick_at (pboxRect g.player.x)).2 }
        PowerUpKind.Bomb := by
    simp only [pickupStep, h]
  rw [hred]
  unfold applyPowerUp
  refine ⟨?_, ?_, rfl, rfl, rfl, rfl⟩
  · simp [clear_all_spec]
  · simp [clear_all_spec]

/-- C1 (amended): on every `Playing` tick, the assigned base fall-speed is
`OB_START_SPEED + now * OB_ACC_PER_SEC` scaled by the slow multiplier,
where `now` is the wall-clock time since application start
(`macroquad::time::get_time()`), not the time since the round started. -/
theorem fall_speed_formula (g : Game) (inp : TickInput) (h : g.mode = GameMode.Playing) :
    (update_game g inp).1.fall_speed =
      (OB_START_SPEED + inp.now * OB_ACC_PER_SEC) *
        (if 0 < slowAfter g inp.dt then SLOW_FACTOR else 1) :=
  update_fall_speed g inp h

theorem fall_speed_formula_witness :
    (reset_round (Game.new 0) 800).mode = GameMode.Playing ∧
    (update_game (reset_round (Game.new 0) 800) { inp0 with now := 2 }).1.fall_speed =
      (OB_START_SPEED + ({ inp0 with now := 2 } : TickInput).now * OB_ACC_PER_SEC) *
        (if 0 < slowAfter (reset_round (Game.new 0) 800) ({ inp0 with now := 2 } : TickInput).dt
          then SLOW_FACTOR else 1) :=
  ⟨rfl, fall_speed_formula _ _ rfl⟩

/-- C1 (counterexample to the claim as stated): start the application, sit
on the menu until wall-clock time 10, start a round (Space), and run the
first Playing tick still at wall-clock time 10, so the elapsed round time
is 0 and no Slow effect is active.  The claim predicts fall-speed
`specFallSpeed 0 false = 140`, but the code assigns `140 + 10 * 18 = 320`:
the difficulty clock is the application clock, not the round clock. -/
theorem fall_speed_not_round_relative :
    (update_game (update_game (Game.new 0) { inp0 with keySpace := true, now := 10 }).1
        { inp0 with now := 10 }).1.fall_speed = 320 ∧
    specFallSpeed 0 false = 140 ∧ ((320 : ℚ) ≠ 140) := by
  have hg1 : (update_game (Game.new 0) { inp0 with keySpace := true, now := 10 }).1 =
      reset_round (Game.new 0) 800 := by
    norm_num [update_game, modeStep, Game.new, reset_round, inp0]
  refine ⟨?_, by norm_num [specFallSpeed, OB_START_SPEED, OB_ACC_PER_SEC], by norm_num⟩
  rw [hg1, update_fall_speed _ _ rfl]
  norm_num [slowAfter, reset_round, OB_START_SPEED, OB_ACC_PER_SEC, inp0]

theorem sweepLoopOb_done (sh dt : ℚ) (live dead : List Obstacle) (i : ℕ)
    (h : ¬ i < live.length) : sweepLoopOb sh dt live dead i = (live, dead) := by
  rw [sweepLoopOb.eq_def, dif_neg h]

theorem sweepLoopOb_keep (sh dt : ℚ) (live dead : List Obstacle) (i : ℕ)
    (h : i < live.length)
    (hy : ¬ (live[i].rect.y + live[i].vy * dt > sh + 5)) :
    sweepLoopOb sh dt live dead i =
      sweepLoopOb sh dt
        (live.set i ⟨⟨live[i].rect.x, live[i].rect.y + live[i].vy * dt,
          live[i].rect.w, live[i].rect.h⟩, live[i].vy⟩) dead (i + 1) := by
  rw [sweepLoopOb.eq_def, dif_pos h, if_neg hy]

theorem sweepLoopPu_done (sh dt : ℚ) (live dead : List PowerUp) (i : ℕ)
    (h : ¬ i < live.length) : sweepLoopPu sh dt live dead i = (live, dead) := by
  rw [sweepLoopPu.eq_def, dif_neg h]

theorem sweepLoopPu_keep (sh dt : ℚ) (live dead : List PowerUp) (i : ℕ)
    (h : i < live.length)
    (hy : ¬ (live[i].rect.y + live[i].vy * dt > sh + 5)) :
    sweepLoopPu sh dt live dead i =
      sweepLoopPu sh dt
        (live.set i ⟨⟨live[i].rect.x, live[i].rect.y + live[i].vy * dt,
          live[i].rect.w, live[i].rect.h⟩, live[i].vy, live[i].kind⟩) dead (i + 1) := by
  rw [sweepLoopPu.eq_def, dif_pos h, if_neg hy]

theorem pickLoopPu_done (live dead : List PowerUp) (pr : Rect) (i : ℕ)
    (h : ¬ i < live.length) : pickLoopPu live dead pr i = (none, live, dead) := by
  rw [pickLoopPu.eq_def, dif_neg h]

theorem pickLoopPu_hit (live dead : List PowerUp) (pr : Rect) (i : ℕ)
    (h : i < live.length) (hov : rects_overlap live[i].rect pr = true) :
    pickLoopPu live dead pr i = (some live[i].kind, swapRemove live i, dead ++ [live[i]]) := by
  rw [pickLoopPu.eq_def, dif_pos h, hov]
  simp

theorem scoreLoop_done (t : ℚ) (s : ℤ) (h : ¬ t ≥ 2/5) : scoreLoop t s = (t, s) := by
  rw [scoreLoop.eq_def, dif_neg h]

theorem scoreLoop_step (t : ℚ) (s : ℤ) (h : t ≥ 2/5) :
    scoreLoop t s = scoreLoop (t - 2/5) (s + 1) := by
  rw [scoreLoop.eq_def, dif_pos h]

theorem pickupStep_none (g : Game)
    (h : (g.pus.pick_at (pboxRect g.player.x)).1 = none) :
    pickupStep g = { g with pus := (g.pus.pick_at (pboxRect g.player.x)).2 } := by
  simp only [pickupStep, h]

/-- C3 (amended): picking up a Bomb power-up clears all live obstacles into
the recycle list (N live obstacles become 0 live and N additional recycled)
and sets the shake magnitude to exactly 6.0 — a direct overwrite, not a
monotonic max. -/
theorem bomb_effect (g : Game)
    (h : (g.pus.pick_at (pboxRect g.player.x)).1 = some PowerUpKind.Bomb) :
    (pickupStep g).obs.live = [] ∧
    (pickupStep g).obs.dead.length = g.obs.dead.length + g.obs.live.length ∧
    (pickupStep g).shake = 6 := by
  obtain ⟨h1, h2, h3, _⟩ := bomb_pickup_effect g h
  exact ⟨h1, h2, h3⟩

theorem bomb_effect_witness :
    (gBomb.pus.pick_at (pboxRect gBomb.player.x)).1 = some PowerUpKind.Bomb ∧
    (pickupStep gBomb).obs.live = [] ∧
    (pickupStep gBomb).obs.dead.length = gBomb.obs.dead.length + gBomb.obs.live.length ∧
    (pickupStep gBomb).shake = 6 := by
  have hp : (gBomb.pus.pick_at (pboxRect gBomb.player.x)).1 = some PowerUpKind.Bomb := by
    norm_num [gBomb, puBomb, PowerUpPool.pick_at, pickLoopPu_hit, rects_overlap, pboxRect,
      PLAYER_Y, PLAYER_W, PLAYER_H, reset_round, Game.new]
  exact ⟨hp, bomb_effect gBomb hp⟩

/-- C3 (counterexample to the claim as stated): in a state with shake 10
whose first overlapping power-up is a Bomb, the pickup overwrites shake
down to 6.0 instead of keeping `max(10, 6) = 10`: the code performs
`game.shake = 6.0`, not a monotonic max. -/
theorem bomb_shake_overwrite_cex :
    gBombShake.shake = 10 ∧ (pickupStep gBombShake).shake = 6 ∧
    ¬ (gBombShake.shake ≤ (pickupStep gBombShake).shake) := by
  have hp : (gBombShake.pus.pick_at (pboxRect gBombShake.player.x)).1
      = some PowerUpKind.Bomb := by
    norm_num [gBombShake, gBomb, puBomb, PowerUpPool.pick_at, pickLoopPu_hit, rects_overlap,
      pboxRect, PLAYER_Y, PLAYER_W, PLAYER_H, reset_round, Game.new]
  obtain ⟨_, _, h3, _⟩ := bomb_pickup_effect gBombShake hp
  refine ⟨rfl, h3, ?_⟩
  rw [h3]
  norm_num [gBombShake, gBomb]

theorem fatal_collision_core (g : Game) (inp : TickInput)
    (hmode : g.mode = GameMode.Playing)
    (hsh : (afterPickup g inp).shield = 0)
    (hcol : (List.findIdx? (fun o => rects_overlap o.rect
        (hitRect (afterPickup g inp).player.x)) (afterPickup g inp).obs.live).isSome = true) :
    (update_game g inp).1.best_score =
      max (afterPickup g inp).best_score (afterPickup g inp).score ∧
    (update_game g inp).2 =
      [max (afterPickup g inp).best_score (afterPickup g inp).score] ∧
    (collisionStep (afterPickup g inp)).1.shake = 10 ∧
    (collisionStep (afterPickup g inp)).1.mode = GameMode.GameOver ∧
    (update_game g inp).1.mode = (if inp.keyP then GameMode.Paused else GameMode.GameOver) := by
  obtain ⟨i, hi⟩ := Option.isSome_iff_exists.mp hcol
  have hc := collisionStep_fatal (afterPickup g inp) i hi hsh
  have e1b : (update_game g inp).1.best_score = (modeStep g inp).1.best_score := rfl
  have e1m : (update_game g inp).1.mode = (modeStep g inp).1.mode := rfl
  have e2 : (update_game g inp).2 = (modeStep g inp).2 := rfl
  refine ⟨?_, ?_, by rw [hc], by rw [hc], ?_⟩
  · rw [e1b, modeStep_playing g inp hmode]
    simp only [playingStep]
    rw [hc]
    cases hpk : inp.keyP <;> simp [hpk]
  · rw [e2, modeStep_playing g inp hmode]
    simp only [playingStep]
    rw [hc]
  · rw [e1m, modeStep_playing g inp hmode]
    simp only [playingStep]
    rw [hc]
    cases hpk : inp.keyP <;> simp [hpk]

/-- C4 (amended): on a `Playing` tick where, after pickup resolution, an
obstacle overlaps the shrunk hitbox and the shield is 0: the best score is
updated to `max(best_score, score)`, `save_best` is invoked exactly once
with that value, the collision handler sets mode `GameOver` and shake 10.0,
and the tick ends in `GameOver` — unless the pause key was pressed in the
same tick, in which case the trailing pause check overrides the mode to
`Paused`. -/
theorem fatal_collision (g : Game) (inp : TickInput)
    (hmode : g.mode = GameMode.Playing)
    (hsh : (afterPickup g inp).shield = 0)
    (hcol : (List.findIdx? (fun o => rects_overlap o.rect
        (hitRect (afterPickup g inp).player.x)) (afterPickup g inp).obs.live).isSome = true) :
    (update_game g inp).1.best_score =
      max (afterPickup g inp).best_score (afterPickup g inp).score ∧
    (update_game g inp).2 =
      [max (afterPickup g inp).best_score (afterPickup g inp).score] ∧
    (collisionStep (afterPickup g inp)).1.shake = 10 ∧
    (collisionStep (afterPickup g inp)).1.mode = GameMode.GameOver ∧
    (update_game g inp).1.mode = (if inp.keyP then GameMode.Paused else GameMode.GameOver) :=
  fatal_collision_core g inp hmode hsh hcol

theorem fatal_collision_witness :
    gFatal.mode = GameMode.Playing ∧ (afterPickup gFatal inp0).shield = 0 ∧
    (afterPickup gFatal inp0).best_score = 50 ∧ (afterPickup gFatal inp0).score = 30 ∧
    (update_game gFatal inp0).1.best_score = 50 ∧
    (update_game gFatal inp0).2 = [50] ∧
    (update_game gFatal inp0).1.mode = GameMode.GameOver := by
  have hpus : (prePickup gFatal inp0).pus = ⟨[], []⟩ := by
    show (PowerUpPool.update_and_sweep _ _ _) = _
    norm_num [prePickup, PowerUpPool.update_and_sweep, sweepLoopPu_done,
      gFatal, reset_round, Game.new, inp0, PU_SPAWN_INTERVAL]
  have hpick : ((prePickup gFatal inp0).pus.pick_at
      (pboxRect (prePickup gFatal inp0).player.x)).1 = none := by
    rw [hpus]
    norm_num [PowerUpPool.pick_at, pickLoopPu_done]
  have hps := pickupStep_none (prePickup gFatal inp0) hpick
  have hobs : (prePickup gFatal inp0).obs = ⟨[obCex], []⟩ := by
    show (ObstaclePool.update_and_sweep _ _ _) = _
    norm_num [prePickup, ObstaclePool.update_and_sweep, sweepLoopOb_keep, sweepLoopOb_done,
      gFatal, reset_round, Game.new, inp0, obCex, clamp, max_def, min_def,
      difficulty_curve, slowAfter, OB_START_SPEED, OB_ACC_PER_SEC, SPAWN_MIN_INTERVAL,
      SLOW_FACTOR, SPAWN_BASE_INTERVAL]
  have hx : (prePickup gFatal inp0).player.x = 360 := by
    norm_num [prePickup, clamp, max_def, min_def, gFatal, reset_round, Game.new, inp0,
      PLAYER_W, PLAYER_SPEED_MAX, PLAYER_ACC]
  have hsh : (afterPickup gFatal inp0).shield = 0 := by
    show (pickupStep (prePickup gFatal inp0)).shield = 0
    rw [hps]
    rfl
  have hcol : (List.findIdx? (fun o => rects_overlap o.rect
      (hitRect (afterPickup gFatal inp0).player.x))
      (afterPickup gFatal inp0).obs.live).isSome = true := by
    show (List.findIdx? (fun o => rects_overlap o.rect
      (hitRect (pickupStep (prePickup gFatal inp0)).player.x))
      (pickupStep (prePickup gFatal inp0)).obs.live).isSome = true
    rw [hps]
    show (List.findIdx? (fun o => rects_overlap o.rect
      (hitRect (prePickup gFatal inp0).player.x)) (prePickup gFatal inp0).obs.live).isSome
      = true
    rw [hobs, hx]
    norm_num [List.findIdx?_cons, rects_overlap, hitRect, obCex,
      PLAYER_Y, PLAYER_W, PLAYER_H]
  have hbest : (afterPickup gFatal inp0).best_score = 50 := by
    show (pickupStep (prePickup gFatal inp0)).best_score = 50
    rw [hps]
    rfl
  have hscore : (afterPickup gFatal inp0).score = 30 := by
    show (pickupStep (prePickup gFatal inp0)).score = 30
    rw [hps]
    show (prePickup gFatal inp0).score = 30
    show (scoreLoop (gFatal.time_tick + inp0.dt) gFatal.score).2 = 30
    rw [show gFatal.time_tick + inp0.dt = 0 from by norm_num [gFatal, reset_round, inp0],
      scoreLoop_done 0 gFatal.score (by norm_num)]
    rfl
  obtain ⟨c1, c2, _, _, c5⟩ := fatal_collision gFatal inp0 rfl hsh hcol
  refine ⟨rfl, hsh, hbest, hscore, ?_, ?_, ?_⟩
  · rw [c1, hbest, hscore]
    norm_num
  · rw [c2, hbest, hscore]
    norm_num
  · rw [c5]
    norm_num [inp0]

/-- C4 (counterexample to the claim as stated): in the very same fatal
collision scenario, pressing the pause key on the same tick makes the tick
end in `Paused`, not `GameOver`: the trailing
`if is_key_pressed(P) { mode = Paused }` check runs after the collision
handler and overrides the transition. -/
theorem fatal_collision_pause_cex :
    (update_game gFatal { inp0 with keyP := true }).1.mode = GameMode.Paused ∧
    GameMode.Paused ≠ GameMode.GameOver := by
  have hpus : (prePickup gFatal { inp0 with keyP := true }).pus = ⟨[], []⟩ := by
    show (PowerUpPool.update_and_sweep _ _ _) = _
    norm_num [prePickup, PowerUpPool.update_and_sweep, sweepLoopPu_done,
      gFatal, reset_round, Game.new, inp0, PU_SPAWN_INTERVAL]
  have hpick : ((prePickup gFatal { inp0 with keyP := true }).pus.pick_at
      (pboxRect (prePickup gFatal { inp0 with keyP := true }).player.x)).1 = none := by
    rw [hpus]
    norm_num [PowerUpPool.pick_at, pickLoopPu_done]
  have hps := pickupStep_none (prePickup gFatal { inp0 with keyP := true }) hpick
  have hobs : (prePickup gFatal { inp0 with keyP := true }).obs = ⟨[obCex], []⟩ := by
    show (ObstaclePool.update_and_sweep _ _ _) = _
    norm_num [prePickup, ObstaclePool.update_and_sweep, sweepLoopOb_keep, sweepLoopOb_done,
      gFatal, reset_round, Game.new, inp0, obCex, clamp, max_def, min_def,
      difficulty_curve, slowAfter, OB_START_SPEED, OB_ACC_PER_SEC, SPAWN_MIN_INTERVAL,
      SLOW_FACTOR, SPAWN_BASE_INTERVAL]
  have hx : (prePickup gFatal { inp0 with keyP := true }).player.x = 360 := by
    norm_num [prePickup, clamp, max_def, min_def, gFatal, reset_round, Game.new, inp0,
      PLAYER_W, PLAYER_SPEED_MAX, PLAYER_ACC]
  have hsh : (afterPickup gFatal { inp0 with keyP := true }).shield = 0 := by
    show (pickupStep (prePickup gFatal { inp0 with keyP := true })).shield = 0
    rw [hps]
    rfl
  have hcol : (List.findIdx? (fun o => rects_overlap o.rect
      (hitRect (afterPickup gFatal { inp0 with keyP := true }).player.x))
      (afterPickup gFatal { inp0 with keyP := true }).obs.live).isSome = true := by
    show (List.findIdx? (fun o => rects_overlap o.rect
      (hitRect (pickupStep (prePickup gFatal { inp0 with keyP := true })).player.x))
      (pickupStep (prePickup gFatal { inp0 with keyP := true })).obs.live).isSome = true
    rw [hps]
    show (List.findIdx? (fun o => rects_overlap o.rect
      (hitRect (prePickup gFatal { inp0 with keyP := true }).player.x))
      (prePickup gFatal { inp0 with keyP := true }).obs.live).isSome = true
    rw [hobs, hx]
    norm_num [List.findIdx?_cons, rects_overlap, hitRect, obCex,
      PLAYER_Y, PLAYER_W, PLAYER_H]
  obtain ⟨_, _, _, _, c5⟩ := fatal_collision_core gFatal { inp0 with keyP := true } rfl hsh hcol
  refine ⟨?_, by simp⟩
  rw [c5]
  norm_num

theorem playing_mode_no_hit (g : Game) (inp : TickInput)
    (hmode : g.mode = GameMode.Playing) (hkp : inp.keyP = false)
    (hnone : List.findIdx? (fun o => rects_overlap o.rect
      (hitRect (afterPickup g inp).player.x)) (afterPickup g inp).obs.live = none) :
    (update_game g inp).1.mode = GameMode.Playing := by
  have hm2 : (afterPickup g inp).mode = GameMode.Playing := by
    show (pickupStep (prePickup g inp)).mode = _
    rw [(pickupStep_preserves _).1]
    exact hmode
  have e1m : (update_game g inp).1.mode = (modeStep g inp).1.mode := rfl
  rw [e1m, modeStep_playing g inp hmode]
  simp only [playingStep]
  rw [collisionStep_none _ hnone]
  simp [hkp, hm2]

/-- C9: within a single `Playing` tick, power-up pickup is resolved before
the obstacle collision test; if the first overlapping power-up is a Bomb,
all live obstacles are cleared before collision detection runs, so that
tick cannot end in `GameOver` and cannot decrement the shield — even if an
obstacle overlapped the shrunk hitbox when the collision test would
otherwise have fired. -/
theorem bomb_preempts_collision (g : Game) (inp : TickInput)
    (hmode : g.mode = GameMode.Playing)
    (hpick : ((prePickup g inp).pus.pick_at (pboxRect (prePickup g inp).player.x)).1 =
      some PowerUpKind.Bomb)
    (hobs : (List.findIdx? (fun o => rects_overlap o.rect
      (hitRect (prePickup g inp).player.x)) (prePickup g inp).obs.live).isSome = true) :
    (afterPickup g inp).obs.live = [] ∧
    (update_game g inp).1.mode ≠ GameMode.GameOver ∧
    (update_game g inp).1.shield = g.shield := by
  obtain ⟨hlive, _, _, hshield, hmode2, _⟩ := bomb_pickup_effect (prePickup g inp) hpick
  have h1 : (afterPickup g inp).obs.live = [] := hlive
  have hnone : List.findIdx? (fun o => rects_overlap o.rect
      (hitRect (afterPickup g inp).player.x)) (afterPickup g inp).obs.live = none := by
    rw [h1]
    exact List.findIdx?_nil
  have hc := collisionStep_none (afterPickup g inp) hnone
  refine ⟨h1, ?_, ?_⟩
  · have e1m : (update_game g inp).1.mode = (modeStep g inp).1.mode := rfl
    rw [e1m, modeStep_playing g inp hmode]
    simp only [playingStep]
    rw [hc]
    have hm2 : (afterPickup g inp).mode = GameMode.Playing := by
      show (pickupStep (prePickup g inp)).mode = _
      rw [hmode2]
      exact hmode
    cases hpk : inp.keyP <;> simp [hpk, hm2]
  · have e1s : (update_game g inp).1.shield = (modeStep g inp).1.shield := rfl
    rw [e1s, modeStep_playing g inp hmode]
    simp only [playingStep]
    rw [hc]
    have hs2 : (afterPickup g inp).shield = g.shield := by
      show (pickupStep (prePickup g inp)).shield = _
      rw [hshield]
      rfl
    cases hpk : inp.keyP <;> simp [hpk, hs2]

theorem bomb_preempts_collision_witness :
    gBomb.mode = GameMode.Playing ∧
    ((prePickup gBomb inp0).pus.pick_at (pboxRect (prePickup gBomb inp0).player.x)).1 =
      some PowerUpKind.Bomb ∧
    (List.findIdx? (fun o => rects_overlap o.rect (hitRect (prePickup gBomb inp0).player.x))
      (prePickup gBomb inp0).obs.live).isSome = true ∧
    (afterPickup gBomb inp0).obs.live = [] ∧
    (update_game gBomb inp0).1.mode ≠ GameMode.GameOver ∧
    (update_game gBomb inp0).1.shield = gBomb.shield := by
  have hpus : (prePickup gBomb inp0).pus = ⟨[puBomb], []⟩ := by
    show (PowerUpPool.update_and_sweep _ _ _) = _
    norm_num [prePickup, PowerUpPool.update_and_sweep, sweepLoopPu_keep, sweepLoopPu_done,
      gBomb, reset_round, Game.new, inp0, puBomb, PU_SPAWN_INTERVAL]
  have hx : (prePickup gBomb inp0).player.x = 360 := by
    norm_num [prePickup, clamp, max_def, min_def, gBomb, reset_round, Game.new, inp0,
      PLAYER_W, PLAYER_SPEED_MAX, PLAYER_ACC]
  have hobs : (prePickup gBomb inp0).obs = ⟨[obCex], []⟩ := by
    show (ObstaclePool.update_and_sweep _ _ _) = _
    norm_num [prePickup, ObstaclePool.update_and_sweep, sweepLoopOb_keep, sweepLoopOb_done,
      gBomb, reset_round, Game.new, inp0, obCex, clamp, max_def, min_def,
      difficulty_curve, slowAfter, OB_START_SPEED, OB_ACC_PER_SEC, SPAWN_MIN_INTERVAL,
      SLOW_FACTOR, SPAWN_BASE_INTERVAL]
  have hpick : ((prePickup gBomb inp0).pus.pick_at
      (pboxRect (prePickup gBomb inp0).player.x)).1 = some PowerUpKind.Bomb := by
    rw [hpus, hx]
    norm_num [PowerUpPool.pick_at, pickLoopPu_hit, rects_overlap, pboxRect, puBomb,
      PLAYER_Y, PLAYER_W, PLAYER_H]
  have hcol : (List.findIdx? (fun o => rects_overlap o.rect
      (hitRect (prePickup gBomb inp0).player.x)) (prePickup gBomb inp0).obs.live).isSome
      = true := by
    rw [hobs, hx]
    norm_num [List.findIdx?_cons, rects_overlap, hitRect, obCex,
      PLAYER_Y, PLAYER_W, PLAYER_H]
  exact ⟨rfl, hpick, hcol, bomb_preempts_collision gBomb inp0 rfl hpick hcol⟩

theorem score_accumulator_witness :
    (reset_round (Game.new 0) 800).time_tick = 0 ∧
    (reset_round (Game.new 0) 800).score = 0 ∧
    (∀ inp ∈ [inpT, inpT], 0 ≤ inp.dt) ∧
    (∀ k, k < ([inpT, inpT] : List TickInput).length →
      (runTicks (reset_round (Game.new 0) 800) ([inpT, inpT].take k)).mode
        = GameMode.Playing) ∧
    (runTicks (reset_round (Game.new 0) 800) [inpT, inpT]).score =
      ⌊(([inpT, inpT].map TickInput.dt).sum) / (2/5 : ℚ)⌋ := by
  have hpus : (prePickup (reset_round (Game.new 0) 800) inpT).pus = ⟨[], []⟩ := by
    show (PowerUpPool.update_and_sweep _ _ _) = _
    norm_num [prePickup, PowerUpPool.update_and_sweep, sweepLoopPu_done,
      reset_round, Game.new, inpT, PU_SPAWN_INTERVAL]
  have hobs : (prePickup (reset_round (Game.new 0) 800) inpT).obs = ⟨[], []⟩ := by
    show (ObstaclePool.update_and_sweep _ _ _) = _
    norm_num [prePickup, ObstaclePool.update_and_sweep, sweepLoopOb_done,
      reset_round, Game.new, inpT, clamp, max_def, min_def, difficulty_curve, slowAfter,
      OB_START_SPEED, OB_ACC_PER_SEC, SPAWN_MIN_INTERVAL, SLOW_FACTOR, SPAWN_BASE_INTERVAL]
  have hpick : ((prePickup (reset_round (Game.new 0) 800) inpT).pus.pick_at
      (pboxRect (prePickup (reset_round (Game.new 0) 800) inpT).player.x)).1 = none := by
    rw [hpus]
    norm_num [PowerUpPool.pick_at, pickLoopPu_done]
  have hps := pickupStep_none (prePickup (reset_round (Game.new 0) 800) inpT) hpick
  have hnone : List.findIdx? (fun o => rects_overlap o.rect
      (hitRect (afterPickup (reset_round (Game.new 0) 800) inpT).player.x))
      (afterPickup (reset_round (Game.new 0) 800) inpT).obs.live = none := by
    have hl : (afterPickup (reset_round (Game.new 0) 800) inpT).obs.live = [] := by
      show (pickupStep (prePickup (reset_round (Game.new 0) 800) inpT)).obs.live = []
      rw [hps]
      show (prePickup (reset_round (Game.new 0) 800) inpT).obs.live = []
      rw [hobs]
    rw [hl]
    exact List.findIdx?_nil
  have hm1 : (update_game (reset_round (Game.new 0) 800) inpT).1.mode = GameMode.Playing :=
    playing_mode_no_hit (reset_round (Game.new 0) 800) inpT rfl rfl hnone
  have hmodes : ∀ k, k < ([inpT, inpT] : List TickInput).length →
      (runTicks (reset_round (Game.new 0) 800) ([inpT, inpT].take k)).mode
        = GameMode.Playing := by
    intro k hk
    have hk2 : k < 2 := by simpa using hk
    clear hk
    interval_cases k
    · rfl
    · exact hm1
  have hdts : ∀ inp ∈ [inpT, inpT], 0 ≤ inp.dt := by
    intro inp hi
    simp only [List.mem_cons, List.not_mem_nil, or_false] at hi
    rcases hi with rfl | rfl <;> norm_num [inpT]
  exact ⟨rfl, rfl, hdts, hmodes,
    score_accumulator (reset_round (Game.new 0) 800) [inpT, inpT] rfl rfl hdts hmodes⟩

end DodgeRush
